import Mathlib

/-!
Audio mixer (core/mixer/audio/audio_mixer.cpp)

A shallow embedding of `audio_mixer::implementation`: the transform stack
(`begin` / `end`), the collector (`visit`) and the crossfade-accumulate-quantize
operation (`mix`).

Conventions of the embedding

* `float` / `double` arithmetic is read as exact arithmetic over `ℚ`.
* A pointer tag (`const void*`) is a natural number.
* A buffer (`std::vector`) is a `List`; every SSE load and store checks its four
  indices against the buffer length and yields `fault.access` when one is outside.
* `std::stack` is a `List` whose head is the top; `top()` and `pop()` on an empty
  stack yield `fault.empty_stack`.
* A loop `for (n = 0; n < bound; ++n)` is a structural recursion on the number of
  iterations left, carrying `n`.
-/

set_option autoImplicit false

namespace caspar.core

/-! ## Data model -/

/-- Modelled from the spec: the field-mode enumeration is declared outside this file
(`core/video_format.h`). The mixer only compares values with `upper` and `lower`;
the spec calls them "upper-only" and "lower-only" and treats the type as an opaque
enum. -/
inductive field_mode where
  | empty
  | lower
  | upper
  | progressive
  deriving DecidableEq, Repr

/-- Modelled from the spec: `frame_transform` is declared outside this file
(`core/producer/frame/frame_transform.h`). The spec describes it as a value
"carrying at least a volume scalar and a field-mode tag"; these are the two members
the mixer reads. `volume` is a `double`, read as an exact rational. -/
structure frame_transform where
  volume : ℚ
  field_mode : field_mode
  deriving DecidableEq, Repr

/-- The three members of `video_format_desc` the mixer reads. -/
structure video_format_desc where
  field_mode : field_mode
  audio_channels : Nat
  audio_samples_per_frame : Nat
  deriving DecidableEq, Repr

/-- The type `audio_buffer`: a vector of 32-bit integer samples. -/
abbrev audio_buffer := List Int

/-- The struct `audio_item`. -/
structure audio_item where
  tag : Nat
  transform : frame_transform
  audio_data : audio_buffer
  deriving DecidableEq, Repr

/-- The two members of `write_frame` that `visit` uses: `tag()` and `audio_data()`. -/
structure write_frame where
  tag : Nat
  audio_data : audio_buffer
  deriving DecidableEq, Repr

/-- The member of `basic_frame` that `begin` uses: `get_frame_transform()`. -/
structure basic_frame where
  get_frame_transform : frame_transform
  deriving DecidableEq, Repr

/-- The ways a call can fail to return: a failed `CASPAR_ASSERT`, a vector load or
store outside its buffer, `top()` / `pop()` on an empty stack. -/
inductive fault where
  | assertion
  | access
  | empty_stack
  deriving DecidableEq, Repr

/-- The type `std::map<const void*, core::frame_transform>`, kept ordered by key. -/
abbrev transform_map := List (Nat × frame_transform)

/-- The call `std::map::find`: the transform stored for a tag, if any. -/
def map_find : transform_map → Nat → Option frame_transform
  | [], _ => none
  | (k, v) :: m, tag => if tag = k then some v else map_find m tag

/-- The assignment `m[tag] = t` of `std::map`: insert the key, or overwrite its value. -/
def map_assign : transform_map → Nat → frame_transform → transform_map
  | [], tag, t => [(tag, t)]
  | (k, v) :: m, tag, t =>
    if tag < k then (tag, t) :: (k, v) :: m
    else if tag = k then (k, t) :: m
    else (k, v) :: map_assign m tag t

/-- The struct `audio_mixer::implementation`. -/
structure implementation where
  transform_stack_ : List frame_transform
  prev_frame_transforms_ : transform_map
  format_desc_ : video_format_desc
  items : List audio_item
  deriving DecidableEq, Repr

/-! ## SSE primitives -/

/-- A 128-bit register holding four lanes; `e0` is the lane at the lowest address. -/
structure m128 (α : Type) where
  e0 : α
  e1 : α
  e2 : α
  e3 : α
  deriving DecidableEq, Repr

/-- The intrinsic `_mm_setr_ps`: the first argument goes to the lowest lane. -/
def _mm_setr_ps (a b c d : ℚ) : m128 ℚ := ⟨a, b, c, d⟩

/-- The intrinsic `_mm_set_ps1`: broadcast to all four lanes. -/
def _mm_set_ps1 (a : ℚ) : m128 ℚ := ⟨a, a, a, a⟩

/-- The intrinsic `_mm_mul_ps`. -/
def _mm_mul_ps (a b : m128 ℚ) : m128 ℚ := ⟨a.e0 * b.e0, a.e1 * b.e1, a.e2 * b.e2, a.e3 * b.e3⟩

/-- The intrinsic `_mm_sub_ps`. -/
def _mm_sub_ps (a b : m128 ℚ) : m128 ℚ := ⟨a.e0 - b.e0, a.e1 - b.e1, a.e2 - b.e2, a.e3 - b.e3⟩

/-- The intrinsic `_mm_add_ps`. -/
def _mm_add_ps (a b : m128 ℚ) : m128 ℚ := ⟨a.e0 + b.e0, a.e1 + b.e1, a.e2 + b.e2, a.e3 + b.e3⟩

/-- The intrinsic `_mm_cvtepi32_ps`: each 32-bit integer lane as a float. -/
def _mm_cvtepi32_ps (a : m128 Int) : m128 ℚ := ⟨(a.e0 : ℚ), (a.e1 : ℚ), (a.e2 : ℚ), (a.e3 : ℚ)⟩

/-- Round to the nearest integer, a tie going to the even neighbour. -/
def round_ties_even (x : ℚ) : Int :=
  let f := Rat.floor x
  let d := x - (f : ℚ)
  if d < 1 / 2 then f
  else if 1 / 2 < d then f + 1
  else if f % 2 = 0 then f
  else f + 1

/-- One lane of `_mm_cvtps_epi32` under the default rounding mode: round to nearest
even; a value outside the 32-bit range gives the "integer indefinite" 0x80000000. -/
def cvtps_epi32_lane (x : ℚ) : Int :=
  let r := round_ties_even x
  if -2147483648 ≤ r ∧ r ≤ 2147483647 then r else -2147483648

/-- The intrinsic `_mm_cvtps_epi32`. -/
def _mm_cvtps_epi32 (a : m128 ℚ) : m128 Int :=
  ⟨cvtps_epi32_lane a.e0, cvtps_epi32_lane a.e1, cvtps_epi32_lane a.e2, cvtps_epi32_lane a.e3⟩

/-- Read four consecutive elements of a buffer starting at index `i`. -/
def load4 {α : Type} (buf : List α) (i : Nat) : Except fault (m128 α) :=
  match buf[i]?, buf[i + 1]?, buf[i + 2]?, buf[i + 3]? with
  | some a, some b, some c, some d => .ok ⟨a, b, c, d⟩
  | _, _, _, _ => .error fault.access

/-- Write four consecutive elements of a buffer starting at index `i`. -/
def store4 {α : Type} (buf : List α) (i : Nat) (v : m128 α) : Except fault (List α) :=
  if i + 4 ≤ buf.length then
    .ok ((((buf.set i v.e0).set (i + 1) v.e1).set (i + 2) v.e2).set (i + 3) v.e3)
  else .error fault.access

/-- The intrinsic `_mm_load_si128` applied to `&audio_data[i]`. -/
def _mm_load_si128 (buf : List Int) (i : Nat) : Except fault (m128 Int) := load4 buf i

/-- The intrinsic `_mm_load_ps` applied to `&intermediate[i]`. -/
def _mm_load_ps (buf : List ℚ) (i : Nat) : Except fault (m128 ℚ) := load4 buf i

/-- The intrinsic `_mm_store_ps` applied to `&intermediate[i]`. -/
def _mm_store_ps (buf : List ℚ) (i : Nat) (v : m128 ℚ) : Except fault (List ℚ) := store4 buf i v

/-- The intrinsic `_mm_stream_si128` applied to `&result[i]`. -/
def _mm_stream_si128 (buf : List Int) (i : Nat) (v : m128 Int) : Except fault (List Int) :=
  store4 buf i v

/-- Modelled from the spec: the macro `CASPAR_ASSERT` is defined outside this file.
The spec calls the two format checks of `mix` "hard assertions (fatal, not
recoverable)": a false condition ends the call. -/
def CASPAR_ASSERT (cond : Bool) : Except fault Unit :=
  if cond then .ok () else .error fault.assertion

/-! ## The transform stack and the collector -/

/-- The constructor `implementation(format_desc)`, as called in
`new implementation(format_desc)`: the stack holds one default-constructed transform. The default constructor of `frame_transform` is
declared outside this file and is taken as the parameter `identity`. -/
def implementation.new (identity : frame_transform)
    (format_desc : video_format_desc) : implementation :=
  { transform_stack_ := [identity]
    prev_frame_transforms_ := []
    format_desc_ := format_desc
    items := [] }

/-- The member `begin(const core::frame_transform&)`. The operator `*` of
`frame_transform` is declared outside this file and is taken as the parameter
`compose`. -/
def implementation.begin (compose : frame_transform → frame_transform → frame_transform)
    (self : implementation) (transform : frame_transform) : Except fault implementation :=
  match self.transform_stack_ with
  | [] => .error fault.empty_stack
  | top :: rest => .ok { self with transform_stack_ := compose top transform :: top :: rest }

/-- The member `begin(core::basic_frame&)`. -/
def implementation.begin_frame (compose : frame_transform → frame_transform → frame_transform)
    (self : implementation) (frame : basic_frame) : Except fault implementation :=
  match self.transform_stack_ with
  | [] => .error fault.empty_stack
  | top :: rest =>
    .ok { self with transform_stack_ := compose top frame.get_frame_transform :: top :: rest }

/-- The member `end()`. -/
def implementation.end_ (self : implementation) : Except fault implementation :=
  match self.transform_stack_ with
  | [] => .error fault.empty_stack
  | _ :: rest => .ok { self with transform_stack_ := rest }

/-- The member `visit(core::write_frame&)`: the engine after the call, and the frame
after the call (its buffer is moved from when the frame is collected). -/
def implementation.visit (self : implementation) (frame : write_frame) :
    Except fault (implementation × write_frame) :=
  match self.transform_stack_ with
  | [] => .error fault.empty_stack
  | top :: _ =>
    if self.format_desc_.field_mode = field_mode.upper ∧ top.field_mode = field_mode.upper then
      .ok (self, frame)
    else if self.format_desc_.field_mode = field_mode.lower
        ∧ top.field_mode = field_mode.lower then
      .ok (self, frame)
    else if top.volume < 0.002 ∨ frame.audio_data = [] then
      .ok (self, frame)
    else
      .ok ({ self with items := self.items ++ [⟨frame.tag, top, frame.audio_data⟩] },
           { frame with audio_data := [] })

/-! ## mix -/

/-- The inner loop of `mix` for one item:
`for (n = 0; n < audio_samples_per_frame/4; ++n)`, with `k` iterations left. -/
def accumulate_loop (audio_data : List Int) (prev_ps next_ps delta2_ps : m128 ℚ) :
    Nat → Nat → m128 ℚ → List ℚ → Except fault (List ℚ)
  | 0, _, _, intermediate => .ok intermediate
  | k + 1, n, alpha_ps, intermediate => do
    let next2_ps := _mm_mul_ps next_ps alpha_ps
    let prev2_ps := _mm_sub_ps prev_ps (_mm_mul_ps prev_ps alpha_ps)
    let volume_ps := _mm_add_ps next2_ps prev2_ps
    let sample_ps := _mm_cvtepi32_ps (← _mm_load_si128 audio_data (n * 4))
    let res_sample_ps ← _mm_load_ps intermediate (n * 4)
    let sample_ps := _mm_mul_ps sample_ps volume_ps
    let res_sample_ps := _mm_add_ps sample_ps res_sample_ps
    let alpha_ps := _mm_add_ps alpha_ps delta2_ps
    let intermediate ← _mm_store_ps intermediate (n * 4) res_sample_ps
    accumulate_loop audio_data prev_ps next_ps delta2_ps k (n + 1) alpha_ps intermediate

/-- The local state of the item loop of `mix`. -/
structure mix_state where
  intermediate : List ℚ
  next_frame_transforms : transform_map
  deriving DecidableEq, Repr

/-- The transform `prev` that `mix` resolves for an item: the continuity entry of
its tag when there is one, the item's own transform otherwise. -/
def resolve_prev (prev_frame_transforms_ : transform_map) (item : audio_item) :
    frame_transform :=
  match map_find prev_frame_transforms_ item.tag with
  | some t => t
  | none => item.transform

/-- The body of the `BOOST_FOREACH` over the items in `mix`. -/
def mix_item (format_desc_ : video_format_desc) (prev_frame_transforms_ : transform_map)
    (st : mix_state) (item : audio_item) : Except fault mix_state :=
  let next := item.transform
  let prev := resolve_prev prev_frame_transforms_ item
  let next_frame_transforms := map_assign st.next_frame_transforms item.tag next
  if next.volume < 0.001 ∧ prev.volume < 0.001 then
    .ok ⟨st.intermediate, next_frame_transforms⟩
  else if item.audio_data.length ≠ format_desc_.audio_samples_per_frame then
    .ok ⟨st.intermediate, next_frame_transforms⟩
  else do
    CASPAR_ASSERT (format_desc_.audio_channels == 2)
    CASPAR_ASSERT (format_desc_.audio_samples_per_frame % 4 == 0)
    let prev_volume : ℚ := prev.volume
    let next_volume : ℚ := next.volume
    let delta : ℚ :=
      1 / ((format_desc_.audio_samples_per_frame / format_desc_.audio_channels : Nat) : ℚ)
    let alpha_ps := _mm_setr_ps delta delta 0 0
    let delta2_ps := _mm_set_ps1 (delta * 2)
    let prev_ps := _mm_set_ps1 prev_volume
    let next_ps := _mm_set_ps1 next_volume
    let intermediate ← accumulate_loop item.audio_data prev_ps next_ps delta2_ps
      (format_desc_.audio_samples_per_frame / 4) 0 alpha_ps st.intermediate
    .ok ⟨intermediate, next_frame_transforms⟩

/-- The `BOOST_FOREACH` over the items in `mix`. -/
def mix_items (format_desc_ : video_format_desc) (prev_frame_transforms_ : transform_map) :
    List audio_item → mix_state → Except fault mix_state
  | [], st => .ok st
  | item :: rest, st => do
    let st ← mix_item format_desc_ prev_frame_transforms_ st item
    mix_items format_desc_ prev_frame_transforms_ rest st

/-- The quantize loop of `mix`:
`for (n = 0; n < audio_samples_per_frame/32; ++n)`, with `k` iterations left;
`intermediate_128` and `result_128` count 128-bit words from the start of their
buffers. -/
def quantize_loop (intermediate : List ℚ) :
    Nat → Nat → Nat → List Int → Except fault (List Int)
  | 0, _, _, result => .ok result
  | k + 1, intermediate_128, result_128, result => do
    let xmm0 ← _mm_load_ps intermediate (4 * intermediate_128)
    let xmm1 ← _mm_load_ps intermediate (4 * (intermediate_128 + 1))
    let xmm2 ← _mm_load_ps intermediate (4 * (intermediate_128 + 2))
    let xmm3 ← _mm_load_ps intermediate (4 * (intermediate_128 + 3))
    let xmm4 ← _mm_load_ps intermediate (4 * (intermediate_128 + 4))
    let xmm5 ← _mm_load_ps intermediate (4 * (intermediate_128 + 5))
    let xmm6 ← _mm_load_ps intermediate (4 * (intermediate_128 + 6))
    let xmm7 ← _mm_load_ps intermediate (4 * (intermediate_128 + 7))
    let result ← _mm_stream_si128 result (4 * result_128) (_mm_cvtps_epi32 xmm0)
    let result ← _mm_stream_si128 result (4 * (result_128 + 1)) (_mm_cvtps_epi32 xmm1)
    let result ← _mm_stream_si128 result (4 * (result_128 + 2)) (_mm_cvtps_epi32 xmm2)
    let result ← _mm_stream_si128 result (4 * (result_128 + 3)) (_mm_cvtps_epi32 xmm3)
    let result ← _mm_stream_si128 result (4 * (result_128 + 4)) (_mm_cvtps_epi32 xmm4)
    let result ← _mm_stream_si128 result (4 * (result_128 + 5)) (_mm_cvtps_epi32 xmm5)
    let result ← _mm_stream_si128 result (4 * (result_128 + 6)) (_mm_cvtps_epi32 xmm6)
    let result ← _mm_stream_si128 result (4 * (result_128 + 7)) (_mm_cvtps_epi32 xmm7)
    quantize_loop intermediate k (intermediate_128 + 8) (result_128 + 8) result

/-- The accumulation buffer of `mix` after the item loop, with the continuity map
built on the way. -/
def mix_accumulate (self : implementation) : Except fault mix_state :=
  mix_items self.format_desc_ self.prev_frame_transforms_ self.items
    ⟨List.replicate (self.format_desc_.audio_samples_per_frame + 128) 0, []⟩

/-- The member `mix()`: the block returned, and the engine after the call. -/
def implementation.mix (self : implementation) : Except fault (audio_buffer × implementation) := do
  let st ← mix_accumulate self
  let result : audio_buffer :=
    List.replicate (self.format_desc_.audio_samples_per_frame + 128) 0
  let result ← quantize_loop st.intermediate
    (self.format_desc_.audio_samples_per_frame / 32) 0 0 result
  .ok (result.take self.format_desc_.audio_samples_per_frame,
       { self with items := [], prev_frame_transforms_ := st.next_frame_transforms })

/-! ## Definitions used to state the properties -/

/-- Lane `k` of a register (lane 3 for every `k ≥ 3`). -/
def m128.lane {α : Type} (v : m128 α) (k : Nat) : α :=
  match k with
  | 0 => v.e0
  | 1 => v.e1
  | 2 => v.e2
  | _ => v.e3

/-- The register `alpha_ps` at the start of iteration `n` of the inner loop of `mix`:
the initial register after `n` executions of `alpha_ps = _mm_add_ps(alpha_ps, delta2_ps)`. -/
def alpha_ps_at (alpha_ps delta2_ps : m128 ℚ) : Nat → m128 ℚ
  | 0 => alpha_ps
  | n + 1 => _mm_add_ps (alpha_ps_at alpha_ps delta2_ps n) delta2_ps

/-- The register `volume_ps` that the inner loop of `mix` computes from `alpha_ps`. -/
def volume_ps_of (prev_ps next_ps alpha_ps : m128 ℚ) : m128 ℚ :=
  _mm_add_ps (_mm_mul_ps next_ps alpha_ps) (_mm_sub_ps prev_ps (_mm_mul_ps prev_ps alpha_ps))

/-- The value `delta` of `mix`. -/
def mix_delta (format_desc_ : video_format_desc) : ℚ :=
  1 / ((format_desc_.audio_samples_per_frame / format_desc_.audio_channels : Nat) : ℚ)

/-- The lane of `alpha_ps` that the inner loop of `mix` uses for sample index `j`. -/
def applied_alpha (format_desc_ : video_format_desc) (j : Nat) : ℚ :=
  (alpha_ps_at (_mm_setr_ps (mix_delta format_desc_) (mix_delta format_desc_) 0 0)
    (_mm_set_ps1 (mix_delta format_desc_ * 2)) (j / 4)).lane (j % 4)

/-- The lane of `volume_ps` that the inner loop of `mix` multiplies sample `j` by. -/
def applied_gain (format_desc_ : video_format_desc) (prev next : frame_transform)
    (j : Nat) : ℚ :=
  (volume_ps_of (_mm_set_ps1 prev.volume) (_mm_set_ps1 next.volume)
    (alpha_ps_at (_mm_setr_ps (mix_delta format_desc_) (mix_delta format_desc_) 0 0)
      (_mm_set_ps1 (mix_delta format_desc_ * 2)) (j / 4))).lane (j % 4)

/-- The alpha the crossfade is specified to use at sample `j`: `i / frameCount`, with
frame index `i = j / 2` and `frameCount = audio_samples_per_frame / 2`. -/
def spec_alpha (format_desc_ : video_format_desc) (j : Nat) : ℚ :=
  ((j / 2 : Nat) : ℚ) / ((format_desc_.audio_samples_per_frame / 2 : Nat) : ℚ)

/-- The gain the crossfade is specified to apply at sample `j`:
`prev.volume * (1 - alpha) + next.volume * alpha`. -/
def spec_gain (format_desc_ : video_format_desc) (prev next : frame_transform) (j : Nat) : ℚ :=
  prev.volume * (1 - spec_alpha format_desc_ j) + next.volume * spec_alpha format_desc_ j

/-- A two-channel format with four samples per frame (two frame-samples). -/
def format_4 : video_format_desc := ⟨field_mode.progressive, 2, 4⟩

/-- An engine on `format_4` whose continuity map holds volume 1 for tag 7 and whose
item list holds one item of tag 7 with volume 3 and four samples of value 100. -/
def ramp_up_engine : implementation :=
  { transform_stack_ := [⟨1, field_mode.progressive⟩]
    prev_frame_transforms_ := [(7, ⟨1, field_mode.progressive⟩)]
    format_desc_ := format_4
    items := [⟨7, ⟨3, field_mode.progressive⟩, [100, 100, 100, 100]⟩] }

/-- A two-channel format with 32 samples per frame (16 frame-samples). -/
def format_32 : video_format_desc := ⟨field_mode.progressive, 2, 32⟩

/-- An engine on `format_32` whose continuity map holds volume `v1` for tag 7 and whose
item list holds one item of tag 7 with volume `v2` and 32 samples of value 16. -/
def ramp_engine_32 (v1 v2 : ℚ) : implementation :=
  { transform_stack_ := [⟨1, field_mode.progressive⟩]
    prev_frame_transforms_ := [(7, ⟨v1, field_mode.progressive⟩)]
    format_desc_ := format_32
    items := [⟨7, ⟨v2, field_mode.progressive⟩, List.replicate 32 16⟩] }

/-- A two-channel format with eight samples per frame (four frame-samples). -/
def format_8 : video_format_desc := ⟨field_mode.progressive, 2, 8⟩

/-- An engine on `format_8` whose continuity map holds volume 3 for tag 7 and whose
item list holds one item of tag 7 with volume 1 and eight samples of value 100. -/
def ramp_down_engine : implementation :=
  { transform_stack_ := [⟨1, field_mode.progressive⟩]
    prev_frame_transforms_ := [(7, ⟨3, field_mode.progressive⟩)]
    format_desc_ := format_8
    items := [⟨7, ⟨1, field_mode.progressive⟩, [100, 100, 100, 100, 100, 100, 100, 100]⟩] }

/-- Whether `mix` adds the samples of an item to the accumulation buffer: the item is
neither skipped as silent nor for the length of its buffer. -/
def is_mixed (format_desc_ : video_format_desc) (prev_frame_transforms_ : transform_map)
    (item : audio_item) : Bool :=
  !(decide (item.transform.volume < 0.001)
      && decide ((resolve_prev prev_frame_transforms_ item).volume < 0.001))
    && decide (item.audio_data.length = format_desc_.audio_samples_per_frame)

/-- The gain-scaled sample that one item adds to accumulator `j` (zero for a skipped
item). -/
def contribution (format_desc_ : video_format_desc) (prev_frame_transforms_ : transform_map)
    (item : audio_item) (j : Nat) : ℚ :=
  if is_mixed format_desc_ prev_frame_transforms_ item then
    ((item.audio_data.getD j 0 : Int) : ℚ)
      * applied_gain format_desc_ (resolve_prev prev_frame_transforms_ item) item.transform j
  else 0

/-- The sum over all items of their gain-scaled sample at index `j`. -/
def accumulated (format_desc_ : video_format_desc) (prev_frame_transforms_ : transform_map)
    (items : List audio_item) (j : Nat) : ℚ :=
  (items.map (fun item => contribution format_desc_ prev_frame_transforms_ item j)).sum

/-- The continuity map after the writes `next_frame_transforms[item.tag] = next` of a
list of items, in order. -/
def record_transforms (m : transform_map) (items : List audio_item) : transform_map :=
  items.foldl (fun acc item => map_assign acc item.tag item.transform) m

/-- The transform of the last item of the list that carries the tag, if any. -/
def last_transform (items : List audio_item) (tag : Nat) : Option frame_transform :=
  ((items.filter (fun item => item.tag = tag)).getLast?).map (fun item => item.transform)

/-- A two-channel format with 36 samples per frame: a multiple of 4, not of 32. -/
def format_36 : video_format_desc := ⟨field_mode.progressive, 2, 36⟩

/-- An engine on `format_36` with an empty continuity map and one collected item of
volume 1 whose 36 samples all have value 100. -/
def tail_engine : implementation :=
  { transform_stack_ := [⟨1, field_mode.progressive⟩]
    prev_frame_transforms_ := []
    format_desc_ := format_36
    items := [⟨7, ⟨1, field_mode.progressive⟩, List.replicate 36 100⟩] }

/-- An engine on `format_4` whose continuity map holds tags 3 and 7 and whose item
list holds tag 7 twice (volumes 1/2 and 1/4) and tag 9 with a buffer of one sample. -/
def continuity_engine : implementation :=
  { transform_stack_ := [⟨1, field_mode.progressive⟩]
    prev_frame_transforms_ :=
      [(3, ⟨1, field_mode.progressive⟩), (7, ⟨1, field_mode.progressive⟩)]
    format_desc_ := format_4
    items := [⟨7, ⟨1 / 2, field_mode.progressive⟩, [8, 8, 8, 8]⟩,
              ⟨9, ⟨1, field_mode.upper⟩, [5]⟩,
              ⟨7, ⟨1 / 4, field_mode.lower⟩, [16, 16, 16, 16]⟩] }

/-- The engine `continuity_engine` after `mix`. -/
def continuity_engine_after : implementation :=
  { transform_stack_ := [⟨1, field_mode.progressive⟩]
    prev_frame_transforms_ :=
      [(7, ⟨1 / 4, field_mode.lower⟩), (9, ⟨1, field_mode.upper⟩)]
    format_desc_ := format_4
    items := [] }

/-- A call of one of the traversal entry points of the engine. -/
inductive call where
  | begin (transform : frame_transform)
  | begin_frame (frame : basic_frame)
  | visit (frame : write_frame)
  | end_
  deriving DecidableEq, Repr

/-- The engine after one traversal call. -/
def implementation.step (compose : frame_transform → frame_transform → frame_transform)
    (self : implementation) : call → Except fault implementation
  | call.begin transform => self.begin compose transform
  | call.begin_frame frame => self.begin_frame compose frame
  | call.visit frame => (self.visit frame).map Prod.fst
  | call.end_ => self.end_

/-- The engine after a sequence of traversal calls. -/
def implementation.run (compose : frame_transform → frame_transform → frame_transform) :
    implementation → List call → Except fault implementation
  | self, [] => .ok self
  | self, c :: cs =>
    match self.step compose c with
    | .ok e2 => e2.run compose cs
    | .error f => .error f

/-- The number of unmatched `begin` calls after a sequence of calls that starts with
`depth` unmatched ones; `none` when some `end` has no earlier unmatched `begin`. -/
def nesting_depth : List call → Nat → Option Nat
  | [], depth => some depth
  | call.begin _ :: cs, depth => nesting_depth cs (depth + 1)
  | call.begin_frame _ :: cs, depth => nesting_depth cs (depth + 1)
  | call.visit _ :: cs, depth => nesting_depth cs depth
  | call.end_ :: _, 0 => none
  | call.end_ :: cs, depth + 1 => nesting_depth cs depth

/-- A well-nested sequence of calls: every `end` matches one earlier unmatched `begin`
and no `begin` is left unmatched. -/
def well_nested (cs : List call) : Prop := nesting_depth cs 0 = some 0

instance (cs : List call) : Decidable (well_nested cs) := by
  unfold well_nested
  exact inferInstance

/-- A composition operator for examples: volumes multiply, the field mode of the right
operand is kept. -/
def volume_compose (a b : frame_transform) : frame_transform :=
  ⟨a.volume * b.volume, b.field_mode⟩

/-- An engine rendering the upper field whose current composed transform is tagged for
the lower field, with volume 1. -/
def other_field_engine : implementation :=
  { transform_stack_ := [⟨1, field_mode.lower⟩, ⟨1, field_mode.progressive⟩]
    prev_frame_transforms_ := []
    format_desc_ := ⟨field_mode.upper, 2, 4⟩
    items := [] }

/-- An engine rendering the upper field whose current composed transform is tagged for
the upper field, with volume 1. -/
def same_field_engine : implementation :=
  { transform_stack_ := [⟨1, field_mode.upper⟩, ⟨1, field_mode.progressive⟩]
    prev_frame_transforms_ := []
    format_desc_ := ⟨field_mode.upper, 2, 4⟩
    items := [] }

/-- An engine in the middle of a traversal: two transforms on the stack. -/
def nested_engine : implementation :=
  { transform_stack_ := [⟨1 / 2, field_mode.upper⟩, ⟨1, field_mode.progressive⟩]
    prev_frame_transforms_ := []
    format_desc_ := format_4
    items := [] }

/-- A well-nested traversal: two nested scopes with a leaf in each, then a third scope. -/
def nested_calls : List call :=
  [call.begin ⟨1 / 2, field_mode.progressive⟩,
   call.visit ⟨7, [1, 2, 3, 4]⟩,
   call.begin_frame ⟨⟨1 / 2, field_mode.upper⟩⟩,
   call.visit ⟨8, [5, 6, 7, 8]⟩,
   call.end_,
   call.end_,
   call.begin ⟨3, field_mode.lower⟩,
   call.end_]


/-- A traversal that collects tag 1 with volume 1 and tag 2 with volume `v2`, each
with 32 samples of value 16. -/
def gap_calls (v2 : ℚ) : List call :=
  [call.begin ⟨1, field_mode.progressive⟩,
   call.visit ⟨1, List.replicate 32 16⟩,
   call.end_,
   call.begin ⟨v2, field_mode.progressive⟩,
   call.visit ⟨2, List.replicate 32 16⟩,
   call.end_]

/-- A traversal that collects only tag 2, with volume 1. -/
def gap_calls_without_1 : List call :=
  [call.begin ⟨1, field_mode.progressive⟩,
   call.visit ⟨2, List.replicate 32 16⟩,
   call.end_]

/-- The engine with the identity transform on its stack, a given continuity map and a
given item list, on `format_32`. -/
def gap_engine (prev_frame_transforms_ : transform_map) (items : List audio_item) :
    implementation :=
  { transform_stack_ := [⟨1, field_mode.progressive⟩]
    prev_frame_transforms_ := prev_frame_transforms_
    format_desc_ := format_32
    items := items }

/-- The items collected by `gap_calls v2`. -/
def gap_items (v2 : ℚ) : List audio_item :=
  [⟨1, ⟨1, field_mode.progressive⟩, List.replicate 32 16⟩,
   ⟨2, ⟨v2, field_mode.progressive⟩, List.replicate 32 16⟩]

/-- The items collected by `gap_calls_without_1`. -/
def gap_items_without_1 : List audio_item :=
  [⟨2, ⟨1, field_mode.progressive⟩, List.replicate 32 16⟩]

/-- The traversal of the cycle after `continuity_engine`: only tag 9 is collected. -/
def calls_tag_9 : List call :=
  [call.begin ⟨1 / 2, field_mode.progressive⟩, call.visit ⟨9, [4, 4, 4, 4]⟩, call.end_]

/-- The engine `continuity_engine_after` after the traversal `calls_tag_9`. -/
def engine_collected_9 : implementation :=
  { continuity_engine_after with
      items := [⟨9, ⟨1 / 2, field_mode.progressive⟩, [4, 4, 4, 4]⟩] }

/-- The engine `engine_collected_9` after `mix`. -/
def engine_after_9 : implementation :=
  { transform_stack_ := [⟨1, field_mode.progressive⟩]
    prev_frame_transforms_ := [(9, ⟨1 / 2, field_mode.progressive⟩)]
    format_desc_ := format_4
    items := [] }

/-- The traversal of the next cycle: only tag 7 is collected, with volume 1. -/
def calls_tag_7 : List call :=
  [call.begin ⟨1, field_mode.upper⟩, call.visit ⟨7, [8, 8, 8, 8]⟩, call.end_]

/-- The engine `engine_after_9` after the traversal `calls_tag_7`. -/
def engine_collected_7 : implementation :=
  { engine_after_9 with items := [⟨7, ⟨1, field_mode.upper⟩, [8, 8, 8, 8]⟩] }

/-- An engine on `format_4` whose item list holds tag 7 twice: first with volume 1
and a buffer of one sample, then with volume 1/2 and a buffer of four. -/
def duplicate_tag_engine : implementation :=
  { transform_stack_ := [⟨1, field_mode.progressive⟩]
    prev_frame_transforms_ := []
    format_desc_ := format_4
    items := [⟨7, ⟨1, field_mode.progressive⟩, [5]⟩,
              ⟨7, ⟨1 / 2, field_mode.progressive⟩, [8, 8, 8, 8]⟩] }

/-- The traversal that collects the items of `duplicate_tag_engine`. -/
def duplicate_tag_calls : List call :=
  [call.begin ⟨1, field_mode.progressive⟩, call.visit ⟨7, [5]⟩, call.end_,
   call.begin ⟨1 / 2, field_mode.progressive⟩, call.visit ⟨7, [8, 8, 8, 8]⟩, call.end_]

/-- The engine `duplicate_tag_engine` after `mix`. -/
def duplicate_tag_engine_after : implementation :=
  { transform_stack_ := [⟨1, field_mode.progressive⟩]
    prev_frame_transforms_ := [(7, ⟨1 / 2, field_mode.progressive⟩)]
    format_desc_ := format_4
    items := [] }

/-- An engine on `format_32` whose continuity map holds volume 1/2000 for tag 7 and
whose item list holds tag 1 (volume 1), tag 7 (volume 1/2000) and tag 2 (volume 3). -/
def silent_item_engine : implementation :=
  { transform_stack_ := [⟨1, field_mode.progressive⟩]
    prev_frame_transforms_ := [(7, ⟨1 / 2000, field_mode.progressive⟩)]
    format_desc_ := format_32
    items := [⟨1, ⟨1, field_mode.progressive⟩, List.replicate 32 16⟩,
              ⟨7, ⟨1 / 2000, field_mode.progressive⟩, List.replicate 32 16⟩,
              ⟨2, ⟨3, field_mode.progressive⟩, List.replicate 32 16⟩] }

/-- An engine on `format_32` with an empty continuity map whose item list holds tag 1
(volume 1), tag 9 with a buffer of one sample, and tag 2 (volume 3). -/
def wrong_length_engine : implementation :=
  { transform_stack_ := [⟨1, field_mode.progressive⟩]
    prev_frame_transforms_ := []
    format_desc_ := format_32
    items := [⟨1, ⟨1, field_mode.progressive⟩, List.replicate 32 16⟩,
              ⟨9, ⟨1 / 2, field_mode.upper⟩, [5]⟩,
              ⟨2, ⟨3, field_mode.progressive⟩, List.replicate 32 16⟩] }

/-- An item with 32 samples of value 16, a given tag and a given volume. -/
def item_32 (tag : Nat) (v : ℚ) : audio_item :=
  ⟨tag, ⟨v, field_mode.progressive⟩, List.replicate 32 16⟩

/-- An item of tag 9 with a buffer of one sample. -/
def short_item : audio_item := ⟨9, ⟨1 / 2, field_mode.upper⟩, [5]⟩

/-- A format with four channels and six samples per frame: the block length is neither
a multiple of 4 nor of the channel count. -/
def format_4ch_6 : video_format_desc := ⟨field_mode.progressive, 4, 6⟩

/-- An engine on `format_4ch_6` whose item list holds an item with a buffer of the
wrong length and an item that is silent in this cycle and the previous one. -/
def unchecked_format_engine : implementation :=
  { transform_stack_ := [⟨1, field_mode.progressive⟩]
    prev_frame_transforms_ := []
    format_desc_ := format_4ch_6
    items := [⟨9, ⟨1, field_mode.progressive⟩, [5]⟩,
              ⟨7, ⟨1 / 2000, field_mode.progressive⟩, [1, 2, 3, 4, 5, 6]⟩] }

/-- An engine on `format_4ch_6` whose item list holds one audible item with a buffer of
the block length. -/
def asserting_engine : implementation :=
  { transform_stack_ := [⟨1, field_mode.progressive⟩]
    prev_frame_transforms_ := []
    format_desc_ := format_4ch_6
    items := [⟨7, ⟨1, field_mode.progressive⟩, [1, 2, 3, 4, 5, 6]⟩] }

/-- An engine on `format_32` whose continuity map holds volume 1 for tag 2 and whose
item list holds tag 1 (volume 1) and tag 2 (volume 3). -/
def order_engine : implementation := gap_engine [(2, ⟨1, field_mode.progressive⟩)] (gap_items 3)

/-- A call of one of the four entry points of the engine. -/
inductive engine_call where
  | traversal (c : call)
  | mix
  deriving DecidableEq, Repr

/-- The engine after one call of an entry point; the block that `mix` returns is
dropped. -/
def implementation.step_call (compose : frame_transform → frame_transform → frame_transform)
    (self : implementation) : engine_call → Except fault implementation
  | engine_call.traversal c => self.step compose c
  | engine_call.mix => self.mix.map Prod.snd

/-- The engine after a sequence of calls of the entry points. -/
def implementation.run_calls
    (compose : frame_transform → frame_transform → frame_transform) :
    implementation → List engine_call → Except fault implementation
  | self, [] => .ok self
  | self, c :: cs =>
    match self.step_call compose c with
    | .ok e2 => e2.run_calls compose cs
    | .error f => .error f

/-- Every item of the item list has a volume of at least 0.002 and a non-empty buffer. -/
def items_audible (self : implementation) : Prop :=
  ∀ item ∈ self.items, 0.002 ≤ item.transform.volume ∧ item.audio_data ≠ []

/-- Two cycles: tag 9 is collected and mixed, then tag 7 is collected. -/
def two_cycle_calls : List engine_call :=
  [engine_call.traversal (call.begin ⟨1 / 2, field_mode.progressive⟩),
   engine_call.traversal (call.visit ⟨9, [4, 4, 4, 4]⟩),
   engine_call.traversal call.end_,
   engine_call.mix,
   engine_call.traversal (call.begin ⟨1, field_mode.upper⟩),
   engine_call.traversal (call.visit ⟨7, [8, 8, 8, 8]⟩),
   engine_call.traversal call.end_]

/-- An engine at the start of a cycle, on `format_4`: the previous cycle collected tag 7
with volume 1. -/
def fade_engine : implementation :=
  { transform_stack_ := [⟨1, field_mode.progressive⟩]
    prev_frame_transforms_ := [(7, ⟨1, field_mode.progressive⟩)]
    format_desc_ := format_4
    items := [] }

/-- A traversal in which the leaf of tag 7 is visited under volume 1/1000 and a leaf of
tag 9 under volume 1. -/
def fade_calls : List call :=
  [call.begin ⟨1 / 1000, field_mode.progressive⟩, call.visit ⟨7, [8, 8, 8, 8]⟩, call.end_,
   call.begin ⟨1, field_mode.progressive⟩, call.visit ⟨9, [4, 4, 4, 4]⟩, call.end_]

/-- The engine `fade_engine` after the traversal `fade_calls`. -/
def fade_engine_collected : implementation :=
  { fade_engine with items := [⟨9, ⟨1, field_mode.progressive⟩, [4, 4, 4, 4]⟩] }

/-! ## Lemmas -/

theorem m128_lane_lt {α : Type} (v : m128 α) (k : Nat) (hk : k < 4) :
    v.lane k = if k = 0 then v.e0 else if k = 1 then v.e1 else if k = 2 then v.e2 else v.e3 := by
  interval_cases k <;> rfl

theorem lane_mul_ps (a b : m128 ℚ) (k : Nat) :
    (_mm_mul_ps a b).lane k = a.lane k * b.lane k := by
  unfold m128.lane _mm_mul_ps; split <;> rfl

theorem lane_add_ps (a b : m128 ℚ) (k : Nat) :
    (_mm_add_ps a b).lane k = a.lane k + b.lane k := by
  unfold m128.lane _mm_add_ps; split <;> rfl

theorem lane_sub_ps (a b : m128 ℚ) (k : Nat) :
    (_mm_sub_ps a b).lane k = a.lane k - b.lane k := by
  unfold m128.lane _mm_sub_ps; split <;> rfl

theorem lane_set_ps1 (a : ℚ) (k : Nat) : (_mm_set_ps1 a).lane k = a := by
  unfold m128.lane _mm_set_ps1; split <;> rfl

theorem lane_cvtepi32_ps (a : m128 Int) (k : Nat) :
    (_mm_cvtepi32_ps a).lane k = ((a.lane k : Int) : ℚ) := by
  unfold m128.lane _mm_cvtepi32_ps; split <;> rfl

theorem lane_cvtps_epi32 (a : m128 ℚ) (k : Nat) :
    (_mm_cvtps_epi32 a).lane k = cvtps_epi32_lane (a.lane k) := by
  unfold m128.lane _mm_cvtps_epi32; split <;> rfl

/-- A load inside the buffer succeeds and reads the four elements at `i .. i+3`. -/
theorem load4_spec {α : Type} (buf : List α) (i : Nat) (h : i + 4 ≤ buf.length) :
    ∃ v, load4 buf i = .ok v ∧ ∀ k, k < 4 → buf[i + k]? = some (v.lane k) := by
  have h0 : i < buf.length := by omega
  have h1 : i + 1 < buf.length := by omega
  have h2 : i + 2 < buf.length := by omega
  have h3 : i + 3 < buf.length := by omega
  refine ⟨⟨buf[i], buf[i + 1], buf[i + 2], buf[i + 3]⟩, ?_, ?_⟩
  · simp [load4, List.getElem?_eq_getElem, h0, h1, h2, h3]
  · intro k hk
    interval_cases k <;> simp [m128.lane, List.getElem?_eq_getElem, h0, h1, h2, h3]

/-- A store inside the buffer succeeds, keeps the length and changes exactly the four
elements at `i .. i+3`. -/
theorem store4_spec {α : Type} (buf : List α) (i : Nat) (v : m128 α)
    (h : i + 4 ≤ buf.length) :
    ∃ buf2, store4 buf i v = .ok buf2 ∧ buf2.length = buf.length ∧
      ∀ j, buf2[j]? = if i ≤ j ∧ j < i + 4 then some (v.lane (j - i)) else buf[j]? := by
  refine ⟨(((buf.set i v.e0).set (i + 1) v.e1).set (i + 2) v.e2).set (i + 3) v.e3,
    by simp [store4, h], by simp, ?_⟩
  intro j
  simp only [List.getElem?_set, List.length_set]
  by_cases h3 : i + 3 = j
  · subst h3; simp [m128.lane]; omega
  by_cases h2 : i + 2 = j
  · subst h2; simp [m128.lane]; omega
  by_cases h1 : i + 1 = j
  · subst h1; simp [m128.lane]; omega
  by_cases h0 : i = j
  · subst h0; simp [m128.lane]; omega
  · have : ¬ (i ≤ j ∧ j < i + 4) := by omega
    simp [h0, h1, h2, h3, this]

theorem alpha_ps_at_shift (a d : m128 ℚ) (m : Nat) :
    alpha_ps_at (_mm_add_ps a d) d m = alpha_ps_at a d (m + 1) := by
  induction m with
  | zero => rfl
  | succ m ih => simp [alpha_ps_at, ih]

/-- The inner loop of `mix` stays inside both buffers, keeps the length of the
accumulation buffer, and adds to each element of the range it covers the sample
times the lane of `volume_ps` of its iteration. -/
theorem accumulate_loop_spec (audio_data : List Int) (prev_ps next_ps delta2_ps : m128 ℚ) :
    ∀ (k n : Nat) (alpha_ps : m128 ℚ) (intermediate : List ℚ),
      4 * (n + k) ≤ audio_data.length → 4 * (n + k) ≤ intermediate.length →
      ∃ out, accumulate_loop audio_data prev_ps next_ps delta2_ps k n alpha_ps intermediate
            = .ok out ∧
        out.length = intermediate.length ∧
        ∀ j, out[j]? =
          if 4 * n ≤ j ∧ j < 4 * (n + k) then
            some (((audio_data.getD j 0 : Int) : ℚ)
                * (volume_ps_of prev_ps next_ps
                    (alpha_ps_at alpha_ps delta2_ps (j / 4 - n))).lane (j % 4)
              + intermediate.getD j 0)
          else intermediate[j]? := by
  intro k
  induction k with
  | zero =>
    intro n alpha_ps intermediate _ _
    refine ⟨intermediate, rfl, rfl, ?_⟩
    intro j
    have : ¬ (4 * n ≤ j ∧ j < 4 * (n + 0)) := by omega
    rw [if_neg this]
  | succ k ih =>
    intro n alpha_ps intermediate ha hi
    obtain ⟨s, hs, hsl⟩ := load4_spec audio_data (n * 4) (by omega)
    obtain ⟨r, hr, hrl⟩ := load4_spec intermediate (n * 4) (by omega)
    obtain ⟨b2, hb, hlen, hget⟩ := store4_spec intermediate (n * 4)
      (_mm_add_ps (_mm_mul_ps (_mm_cvtepi32_ps s)
        (_mm_add_ps (_mm_mul_ps next_ps alpha_ps)
          (_mm_sub_ps prev_ps (_mm_mul_ps prev_ps alpha_ps)))) r) (by omega)
    obtain ⟨out, ho, holen, hoget⟩ := ih (n + 1) (_mm_add_ps alpha_ps delta2_ps) b2
      (by omega) (by omega)
    refine ⟨out, ?_, by omega, ?_⟩
    · simp only [accumulate_loop, _mm_load_si128, _mm_load_ps, _mm_store_ps, hs, hr, hb,
        bind, Except.bind]
      exact ho
    · intro j
      rw [hoget j]
      by_cases h1 : 4 * (n + 1) ≤ j ∧ j < 4 * (n + 1 + k)
      · have h2 : 4 * n ≤ j ∧ j < 4 * (n + (k + 1)) := by omega
        have h3 : ¬ (n * 4 ≤ j ∧ j < n * 4 + 4) := by omega
        have h4 : j / 4 - n = (j / 4 - (n + 1)) + 1 := by omega
        rw [if_pos h1, if_pos h2, alpha_ps_at_shift, ← h4]
        simp only [List.getD_eq_getElem?_getD, hget j, if_neg h3]
      · rw [if_neg h1]
        by_cases h2 : 4 * n ≤ j ∧ j < 4 * (n + (k + 1))
        · have h3 : n * 4 ≤ j ∧ j < n * 4 + 4 := by omega
          have h4 : j / 4 - n = 0 := by omega
          have h5 : j - n * 4 = j % 4 := by omega
          have h6 : j = n * 4 + j % 4 := by omega
          have h7 : j % 4 < 4 := Nat.mod_lt _ (by decide)
          have hsj := hsl (j % 4) h7
          have hrj := hrl (j % 4) h7
          rw [← h6] at hsj hrj
          rw [hget j, if_pos h3, if_pos h2, h4, h5]
          simp only [lane_add_ps, lane_mul_ps, lane_cvtepi32_ps, List.getD_eq_getElem?_getD,
            hsj, hrj, Option.getD_some, alpha_ps_at, volume_ps_of]
        · have h3 : ¬ (n * 4 ≤ j ∧ j < n * 4 + 4) := by omega
          rw [hget j, if_neg h3, if_neg h2]

theorem alpha_ps_at_lane (a d : m128 ℚ) (n k : Nat) :
    (alpha_ps_at a d n).lane k = a.lane k + (n : ℚ) * d.lane k := by
  induction n with
  | zero => simp [alpha_ps_at]
  | succ n ih => simp only [alpha_ps_at, lane_add_ps, ih]; push_cast; ring

/-- Closed form of the lane of `alpha_ps` used for sample `j`: the two samples of an
even frame get the odd multiple of `delta`, those of an odd frame the even one. -/
theorem applied_alpha_eq (format_desc_ : video_format_desc) (j : Nat) :
    applied_alpha format_desc_ j
      = ((2 * (j / 4) + (if j % 4 < 2 then 1 else 0) : Nat) : ℚ) * mix_delta format_desc_ := by
  have h4 : j % 4 < 4 := Nat.mod_lt _ (by decide)
  unfold applied_alpha
  rw [alpha_ps_at_lane, lane_set_ps1, m128_lane_lt _ _ h4]
  generalize j % 4 = r at h4
  interval_cases r <;> simp [_mm_setr_ps] <;> ring

/-- The gain applied to sample `j` is the crossfade formula of the code at the lane of
`alpha_ps` used for `j`. -/
theorem applied_gain_eq (format_desc_ : video_format_desc) (prev next : frame_transform)
    (j : Nat) :
    applied_gain format_desc_ prev next j
      = next.volume * applied_alpha format_desc_ j
        + (prev.volume - prev.volume * applied_alpha format_desc_ j) := by
  unfold applied_gain applied_alpha volume_ps_of
  simp only [lane_add_ps, lane_mul_ps, lane_sub_ps, lane_set_ps1]

/-- An item that fails one of the two tests of `mix` only writes its continuity
entry. -/
theorem mix_item_skipped (format_desc_ : video_format_desc)
    (prev_frame_transforms_ : transform_map) (st : mix_state) (item : audio_item)
    (h : (item.transform.volume < 0.001
            ∧ (resolve_prev prev_frame_transforms_ item).volume < 0.001)
          ∨ item.audio_data.length ≠ format_desc_.audio_samples_per_frame) :
    mix_item format_desc_ prev_frame_transforms_ st item
      = .ok ⟨st.intermediate, map_assign st.next_frame_transforms item.tag item.transform⟩ := by
  unfold mix_item
  rcases h with h | h
  · simp only [h, and_self, if_true]
  · by_cases hs : item.transform.volume < 0.001
        ∧ (resolve_prev prev_frame_transforms_ item).volume < 0.001
    · simp only [hs, and_self, if_true]
    · simp only [hs, if_false, h, ne_eq, not_false_eq_true, if_true]

/-- An item that passes both tests, on a two-channel format whose block length is a
multiple of four: the call returns, the continuity entry is written, and each of the
first `audio_samples_per_frame` accumulators grows by the sample times the applied gain. -/
theorem mix_item_mixed (format_desc_ : video_format_desc)
    (prev_frame_transforms_ : transform_map) (st : mix_state) (item : audio_item)
    (hch : format_desc_.audio_channels = 2)
    (h4 : format_desc_.audio_samples_per_frame % 4 = 0)
    (hsil : ¬ (item.transform.volume < 0.001
            ∧ (resolve_prev prev_frame_transforms_ item).volume < 0.001))
    (hlen : item.audio_data.length = format_desc_.audio_samples_per_frame)
    (hbuf : format_desc_.audio_samples_per_frame ≤ st.intermediate.length) :
    ∃ out, mix_item format_desc_ prev_frame_transforms_ st item
          = .ok ⟨out, map_assign st.next_frame_transforms item.tag item.transform⟩ ∧
      out.length = st.intermediate.length ∧
      ∀ j, out[j]? =
        if j < format_desc_.audio_samples_per_frame then
          some (((item.audio_data.getD j 0 : Int) : ℚ)
              * applied_gain format_desc_ (resolve_prev prev_frame_transforms_ item)
                  item.transform j
            + st.intermediate.getD j 0)
        else st.intermediate[j]? := by
  obtain ⟨out, ho, holen, hoget⟩ := accumulate_loop_spec item.audio_data
    (_mm_set_ps1 (resolve_prev prev_frame_transforms_ item).volume)
    (_mm_set_ps1 item.transform.volume) (_mm_set_ps1 (mix_delta format_desc_ * 2))
    (format_desc_.audio_samples_per_frame / 4) 0
    (_mm_setr_ps (mix_delta format_desc_) (mix_delta format_desc_) 0 0)
    st.intermediate (by omega) (by omega)
  refine ⟨out, ?_, holen, ?_⟩
  · unfold mix_item
    simp only [hsil, if_false, hlen, ne_eq, not_true_eq_false, hch, h4, CASPAR_ASSERT,
      beq_self_eq_true, if_true, bind, Except.bind]
    unfold mix_delta at ho
    rw [hch] at ho
    rw [ho]
  · intro j
    rw [hoget j]
    have e1 : (4 * 0 ≤ j ∧ j < 4 * (0 + format_desc_.audio_samples_per_frame / 4))
        ↔ j < format_desc_.audio_samples_per_frame := by omega
    simp only [e1, Nat.sub_zero, applied_gain]

/-- One load from the accumulation buffer and one store of its conversion into the
result buffer, both inside their buffers. -/
theorem load_cvt_stream_spec (intermediate : List ℚ) (result : List Int) (ip rp : Nat)
    (h1 : ip + 4 ≤ intermediate.length) (h2 : rp + 4 ≤ result.length) :
    ∃ x out, _mm_load_ps intermediate ip = .ok x ∧
      _mm_stream_si128 result rp (_mm_cvtps_epi32 x) = .ok out ∧
      out.length = result.length ∧
      ∀ j, out[j]? =
        if rp ≤ j ∧ j < rp + 4 then some (cvtps_epi32_lane (intermediate.getD (j - rp + ip) 0))
        else result[j]? := by
  obtain ⟨x, hx, hxl⟩ := load4_spec intermediate ip h1
  obtain ⟨out, ho, holen, hoget⟩ := store4_spec result rp (_mm_cvtps_epi32 x) h2
  refine ⟨x, out, hx, ho, holen, ?_⟩
  intro j
  rw [hoget j]
  by_cases h : rp ≤ j ∧ j < rp + 4
  · have e : j - rp + ip = ip + (j - rp) := by omega
    rw [if_pos h, if_pos h, lane_cvtps_epi32, e, List.getD_eq_getElem?_getD,
      hxl (j - rp) (by omega), Option.getD_some]
  · rw [if_neg h, if_neg h]

/-- The quantize loop of `mix` stays inside both buffers, keeps the length of the result
buffer, and writes the conversion of the accumulators into the range it covers:
32 elements for each iteration. -/
theorem quantize_loop_spec (intermediate : List ℚ) :
    ∀ (k ip rp : Nat) (result : List Int),
      4 * (ip + 8 * k) ≤ intermediate.length → 4 * (rp + 8 * k) ≤ result.length →
      ∃ out, quantize_loop intermediate k ip rp result = .ok out ∧
        out.length = result.length ∧
        ∀ j, out[j]? =
          if 4 * rp ≤ j ∧ j < 4 * (rp + 8 * k) then
            some (cvtps_epi32_lane (intermediate.getD (j - 4 * rp + 4 * ip) 0))
          else result[j]? := by
  intro k
  induction k with
  | zero =>
    intro ip rp result _ _
    refine ⟨result, rfl, rfl, ?_⟩
    intro j
    have : ¬ (4 * rp ≤ j ∧ j < 4 * (rp + 8 * 0)) := by omega
    rw [if_neg this]
  | succ k ih =>
    intro ip rp result hi hr
    obtain ⟨x0, r0, hx0, hr0, hl0, hg0⟩ := load_cvt_stream_spec intermediate result
      (4 * ip) (4 * rp) (by omega) (by omega)
    obtain ⟨x1, r1, hx1, hr1, hl1, hg1⟩ := load_cvt_stream_spec intermediate r0
      (4 * (ip + 1)) (4 * (rp + 1)) (by omega) (by omega)
    obtain ⟨x2, r2, hx2, hr2, hl2, hg2⟩ := load_cvt_stream_spec intermediate r1
      (4 * (ip + 2)) (4 * (rp + 2)) (by omega) (by omega)
    obtain ⟨x3, r3, hx3, hr3, hl3, hg3⟩ := load_cvt_stream_spec intermediate r2
      (4 * (ip + 3)) (4 * (rp + 3)) (by omega) (by omega)
    obtain ⟨x4, r4, hx4, hr4, hl4, hg4⟩ := load_cvt_stream_spec intermediate r3
      (4 * (ip + 4)) (4 * (rp + 4)) (by omega) (by omega)
    obtain ⟨x5, r5, hx5, hr5, hl5, hg5⟩ := load_cvt_stream_spec intermediate r4
      (4 * (ip + 5)) (4 * (rp + 5)) (by omega) (by omega)
    obtain ⟨x6, r6, hx6, hr6, hl6, hg6⟩ := load_cvt_stream_spec intermediate r5
      (4 * (ip + 6)) (4 * (rp + 6)) (by omega) (by omega)
    obtain ⟨x7, r7, hx7, hr7, hl7, hg7⟩ := load_cvt_stream_spec intermediate r6
      (4 * (ip + 7)) (4 * (rp + 7)) (by omega) (by omega)
    obtain ⟨out, ho, holen, hoget⟩ := ih (ip + 8) (rp + 8) r7 (by omega) (by omega)
    refine ⟨out, ?_, by omega, ?_⟩
    · simp only [quantize_loop, hx0, hx1, hx2, hx3, hx4, hx5, hx6, hx7,
        hr0, hr1, hr2, hr3, hr4, hr5, hr6, hr7, bind, Except.bind]
      exact ho
    · intro j
      rw [hoget j]
      by_cases c8 : 4 * (rp + 8) ≤ j ∧ j < 4 * (rp + 8 + 8 * k)
      · have e : j - 4 * (rp + 8) + 4 * (ip + 8) = j - 4 * rp + 4 * ip := by omega
        rw [if_pos c8, if_pos (by omega), e]
      · rw [if_neg c8, hg7 j]
        by_cases c7 : 4 * (rp + 7) ≤ j ∧ j < 4 * (rp + 7) + 4
        · have e : j - 4 * (rp + 7) + 4 * (ip + 7) = j - 4 * rp + 4 * ip := by omega
          rw [if_pos c7, if_pos (by omega), e]
        · rw [if_neg c7, hg6 j]
          by_cases c6 : 4 * (rp + 6) ≤ j ∧ j < 4 * (rp + 6) + 4
          · have e : j - 4 * (rp + 6) + 4 * (ip + 6) = j - 4 * rp + 4 * ip := by omega
            rw [if_pos c6, if_pos (by omega), e]
          · rw [if_neg c6, hg5 j]
            by_cases c5 : 4 * (rp + 5) ≤ j ∧ j < 4 * (rp + 5) + 4
            · have e : j - 4 * (rp + 5) + 4 * (ip + 5) = j - 4 * rp + 4 * ip := by omega
              rw [if_pos c5, if_pos (by omega), e]
            · rw [if_neg c5, hg4 j]
              by_cases c4 : 4 * (rp + 4) ≤ j ∧ j < 4 * (rp + 4) + 4
              · have e : j - 4 * (rp + 4) + 4 * (ip + 4) = j - 4 * rp + 4 * ip := by omega
                rw [if_pos c4, if_pos (by omega), e]
              · rw [if_neg c4, hg3 j]
                by_cases c3 : 4 * (rp + 3) ≤ j ∧ j < 4 * (rp + 3) + 4
                · have e : j - 4 * (rp + 3) + 4 * (ip + 3) = j - 4 * rp + 4 * ip := by omega
                  rw [if_pos c3, if_pos (by omega), e]
                · rw [if_neg c3, hg2 j]
                  by_cases c2 : 4 * (rp + 2) ≤ j ∧ j < 4 * (rp + 2) + 4
                  · have e : j - 4 * (rp + 2) + 4 * (ip + 2) = j - 4 * rp + 4 * ip := by omega
                    rw [if_pos c2, if_pos (by omega), e]
                  · rw [if_neg c2, hg1 j]
                    by_cases c1 : 4 * (rp + 1) ≤ j ∧ j < 4 * (rp + 1) + 4
                    · have e : j - 4 * (rp + 1) + 4 * (ip + 1) = j - 4 * rp + 4 * ip := by omega
                      rw [if_pos c1, if_pos (by omega), e]
                    · rw [if_neg c1, hg0 j]
                      by_cases c0 : 4 * rp ≤ j ∧ j < 4 * rp + 4
                      · rw [if_pos c0, if_pos (by omega)]
                      · rw [if_neg c0, if_neg (by omega)]

theorem map_find_assign (m : transform_map) (k : Nat) (t : frame_transform) (tag : Nat) :
    map_find (map_assign m k t) tag = if tag = k then some t else map_find m tag := by
  induction m with
  | nil => simp [map_assign, map_find]
  | cons kv m ih =>
    obtain ⟨k2, v2⟩ := kv
    unfold map_assign
    by_cases h1 : k < k2
    · simp only [h1, if_true, map_find]
    · by_cases h2 : k = k2
      · subst h2
        simp only [h1, if_false, if_true, map_find]
        by_cases h3 : tag = k <;> simp [h3]
      · simp only [h1, h2, if_false, map_find, ih]
        by_cases h3 : tag = k2
        · subst h3
          have h4 : ¬ tag = k := fun h => h2 h.symm
          simp [h4]
        · simp [h3]

/-- The item step of `mix` writes the continuity entry whenever it returns. -/
theorem mix_item_map (format_desc_ : video_format_desc)
    (prev_frame_transforms_ : transform_map) (st st2 : mix_state) (item : audio_item)
    (h : mix_item format_desc_ prev_frame_transforms_ st item = .ok st2) :
    st2.next_frame_transforms = map_assign st.next_frame_transforms item.tag item.transform := by
  unfold mix_item at h
  simp only [bind, Except.bind] at h
  split_ifs at h with h1 h2
  · cases h; rfl
  · cases h; rfl
  · split at h
    · cases h
    · split at h
      · cases h
      · split at h
        · cases h
        · cases h; rfl

/-- The item loop of `mix` builds the continuity map by the writes of all items, in
order, whenever it returns. -/
theorem mix_items_map (format_desc_ : video_format_desc)
    (prev_frame_transforms_ : transform_map) :
    ∀ (items : List audio_item) (st st2 : mix_state),
      mix_items format_desc_ prev_frame_transforms_ items st = .ok st2 →
      st2.next_frame_transforms = record_transforms st.next_frame_transforms items := by
  intro items
  induction items with
  | nil =>
    intro st st2 h
    simp only [mix_items] at h
    cases h; rfl
  | cons item rest ih =>
    intro st st2 h
    simp only [mix_items, bind, Except.bind] at h
    split at h
    · cases h
    · rename_i st1 h1
      rw [ih st1 st2 h, mix_item_map _ _ _ _ _ h1]
      rfl

theorem is_mixed_iff (format_desc_ : video_format_desc)
    (prev_frame_transforms_ : transform_map) (item : audio_item) :
    is_mixed format_desc_ prev_frame_transforms_ item = true ↔
      ¬ (item.transform.volume < 0.001
          ∧ (resolve_prev prev_frame_transforms_ item).volume < 0.001)
        ∧ item.audio_data.length = format_desc_.audio_samples_per_frame := by
  unfold is_mixed
  simp only [Bool.and_eq_true, Bool.not_eq_true', Bool.and_eq_false_iff, decide_eq_true_eq,
    decide_eq_false_iff_not, not_and_or]

/-- One item step on a two-channel format whose block length is a multiple of four:
the step returns and adds the contribution of the item to each of the first
`audio_samples_per_frame` accumulators. -/
theorem mix_item_spec (format_desc_ : video_format_desc)
    (prev_frame_transforms_ : transform_map) (st : mix_state) (item : audio_item)
    (hch : format_desc_.audio_channels = 2)
    (h4 : format_desc_.audio_samples_per_frame % 4 = 0)
    (hbuf : format_desc_.audio_samples_per_frame ≤ st.intermediate.length) :
    ∃ out, mix_item format_desc_ prev_frame_transforms_ st item
          = .ok ⟨out, map_assign st.next_frame_transforms item.tag item.transform⟩ ∧
      out.length = st.intermediate.length ∧
      ∀ j, out[j]? =
        if j < format_desc_.audio_samples_per_frame then
          some (st.intermediate.getD j 0
            + contribution format_desc_ prev_frame_transforms_ item j)
        else st.intermediate[j]? := by
  by_cases hm : is_mixed format_desc_ prev_frame_transforms_ item = true
  · obtain ⟨hsil, hlen⟩ := (is_mixed_iff _ _ _).mp hm
    obtain ⟨out, ho, holen, hoget⟩ := mix_item_mixed format_desc_ prev_frame_transforms_ st
      item hch h4 hsil hlen hbuf
    refine ⟨out, ho, holen, ?_⟩
    intro j
    rw [hoget j, contribution, if_pos hm, add_comm]
  · have hskip : (item.transform.volume < 0.001
            ∧ (resolve_prev prev_frame_transforms_ item).volume < 0.001)
          ∨ item.audio_data.length ≠ format_desc_.audio_samples_per_frame := by
      by_contra hc
      push_neg at hc
      exact hm ((is_mixed_iff _ _ _).mpr ⟨fun h => absurd h.2 (not_lt.mpr (hc.1 h.1)), hc.2⟩)
    refine ⟨st.intermediate, mix_item_skipped _ _ _ _ hskip, rfl, ?_⟩
    intro j
    rw [contribution, if_neg hm, add_zero]
    by_cases hj : j < format_desc_.audio_samples_per_frame
    · have hj2 : j < st.intermediate.length := by omega
      rw [if_pos hj, List.getD_eq_getElem?_getD, List.getElem?_eq_getElem hj2,
        Option.getD_some]
    · rw [if_neg hj]

/-- The item loop of `mix` on a two-channel format whose block length is a multiple of
four: the loop returns, and each of the first `audio_samples_per_frame` accumulators
grows by the sum of the contributions of the items. -/
theorem mix_items_spec (format_desc_ : video_format_desc)
    (prev_frame_transforms_ : transform_map)
    (hch : format_desc_.audio_channels = 2)
    (h4 : format_desc_.audio_samples_per_frame % 4 = 0) :
    ∀ (items : List audio_item) (st : mix_state),
      format_desc_.audio_samples_per_frame ≤ st.intermediate.length →
      ∃ out, mix_items format_desc_ prev_frame_transforms_ items st
            = .ok ⟨out, record_transforms st.next_frame_transforms items⟩ ∧
        out.length = st.intermediate.length ∧
        ∀ j, out[j]? =
          if j < format_desc_.audio_samples_per_frame then
            some (st.intermediate.getD j 0
              + accumulated format_desc_ prev_frame_transforms_ items j)
          else st.intermediate[j]? := by
  intro items
  induction items with
  | nil =>
    intro st hbuf
    refine ⟨st.intermediate, rfl, rfl, ?_⟩
    intro j
    by_cases hj : j < format_desc_.audio_samples_per_frame
    · have hj2 : j < st.intermediate.length := by omega
      simp [accumulated, hj, List.getElem?_eq_getElem hj2]
    · rw [if_neg hj]
  | cons item rest ih =>
    intro st hbuf
    obtain ⟨o1, h1, hl1, hg1⟩ := mix_item_spec format_desc_ prev_frame_transforms_ st item
      hch h4 hbuf
    obtain ⟨o2, h2, hl2, hg2⟩ := ih ⟨o1, map_assign st.next_frame_transforms item.tag
      item.transform⟩ (by simp only; omega)
    refine ⟨o2, ?_, by simp only at hl2; omega, ?_⟩
    · simp only [mix_items, bind, Except.bind, h1]
      exact h2
    · intro j
      rw [hg2 j]
      by_cases hj : j < format_desc_.audio_samples_per_frame
      · simp only [if_pos hj, List.getD_eq_getElem?_getD, hg1 j, Option.getD_some,
          accumulated, List.map_cons, List.sum_cons]
        rw [add_assoc]
      · rw [if_neg hj, if_neg hj, hg1 j, if_neg hj]

/-- Looking a tag up after the continuity writes of a list of items: the transform of
the last item carrying the tag, or the old entry when no item carries it. -/
theorem map_find_record_transforms (items : List audio_item) :
    ∀ (m : transform_map) (tag : Nat),
      map_find (record_transforms m items) tag
        = (last_transform items tag).or (map_find m tag) := by
  induction items with
  | nil => intro m tag; simp [record_transforms, last_transform]
  | cons item rest ih =>
    intro m tag
    have hstep : record_transforms m (item :: rest)
        = record_transforms (map_assign m item.tag item.transform) rest := rfl
    rw [hstep, ih, map_find_assign]
    unfold last_transform
    by_cases h : item.tag = tag
    · have hf : List.filter (fun item => decide (item.tag = tag)) (item :: rest)
          = item :: List.filter (fun item => decide (item.tag = tag)) rest := by
        simp [List.filter_cons, h]
      rw [hf, List.getLast?_cons, if_pos h.symm]
      cases List.getLast? (List.filter (fun item => decide (item.tag = tag)) rest) <;> simp
    · have hf : List.filter (fun item => decide (item.tag = tag)) (item :: rest)
          = List.filter (fun item => decide (item.tag = tag)) rest := by
        simp [List.filter_cons, h]
      have h2 : ¬ tag = item.tag := fun e => h e.symm
      rw [hf, if_neg h2]

theorem last_transform_eq_none (items : List audio_item) (tag : Nat) :
    last_transform items tag = none ↔ ∀ item ∈ items, item.tag ≠ tag := by
  unfold last_transform
  simp [List.getLast?_eq_none_iff, List.filter_eq_nil_iff]

/-- Whenever `mix` returns, the engine it leaves differs from the one it started from
only by the emptied item list and the continuity map rebuilt from the items. -/
theorem mix_ok_state (self : implementation) (block : audio_buffer) (e2 : implementation)
    (h : self.mix = .ok (block, e2)) :
    e2 = { self with items := []
                     prev_frame_transforms_ := record_transforms [] self.items } := by
  unfold implementation.mix at h
  simp only [bind, Except.bind] at h
  split at h
  · cases h
  · rename_i st hst
    split at h
    · cases h
    · have hm := mix_items_map _ _ _ _ _ hst
      simp only at hm
      cases h
      rw [hm]

/-- On a two-channel format whose block length is a multiple of four `mix` returns; the
block has `audio_samples_per_frame` elements; the elements below
`32 * (audio_samples_per_frame / 32)` are the conversions of the accumulated sums and
the remaining ones are zero. -/
theorem mix_spec (self : implementation)
    (hch : self.format_desc_.audio_channels = 2)
    (h4 : self.format_desc_.audio_samples_per_frame % 4 = 0) :
    ∃ block, self.mix = .ok (block,
        { self with items := []
                    prev_frame_transforms_ := record_transforms [] self.items }) ∧
      block.length = self.format_desc_.audio_samples_per_frame ∧
      ∀ j, j < self.format_desc_.audio_samples_per_frame →
        block[j]? = some
          (if j < 32 * (self.format_desc_.audio_samples_per_frame / 32) then
            cvtps_epi32_lane
              (accumulated self.format_desc_ self.prev_frame_transforms_ self.items j)
          else 0) := by
  obtain ⟨acc, hacc, hacclen, haccget⟩ := mix_items_spec self.format_desc_
    self.prev_frame_transforms_ hch h4 self.items
    ⟨List.replicate (self.format_desc_.audio_samples_per_frame + 128) 0, []⟩
    (by simp)
  simp only [List.length_replicate] at hacclen
  obtain ⟨res, hres, hreslen, hresget⟩ := quantize_loop_spec acc
    (self.format_desc_.audio_samples_per_frame / 32) 0 0
    (List.replicate (self.format_desc_.audio_samples_per_frame + 128) 0)
    (by omega) (by simp only [List.length_replicate]; omega)
  simp only [List.length_replicate] at hreslen
  refine ⟨res.take self.format_desc_.audio_samples_per_frame, ?_, ?_, ?_⟩
  · unfold implementation.mix mix_accumulate
    simp only [bind, Except.bind, hacc, hres]
  · simp only [List.length_take, hreslen]
    omega
  · intro j hj
    rw [List.getElem?_take_of_lt hj, hresget j]
    by_cases hq : j < 32 * (self.format_desc_.audio_samples_per_frame / 32)
    · have hq2 : 4 * 0 ≤ j ∧ j < 4 * (0 + 8 * (self.format_desc_.audio_samples_per_frame / 32)) := by
        omega
      have e : j - 4 * 0 + 4 * 0 = j := by omega
      rw [if_pos hq2, if_pos hq, e, List.getD_eq_getElem?_getD, haccget j, if_pos hj]
      simp
    · have hq2 : ¬ (4 * 0 ≤ j ∧ j < 4 * (0 + 8 * (self.format_desc_.audio_samples_per_frame / 32))) := by
        omega
      rw [if_neg hq2, if_neg hq, List.getElem?_replicate_of_lt (by omega)]

theorem round_ties_even_intCast (z : Int) : round_ties_even (z : ℚ) = z := by
  have hf : Rat.floor (z : ℚ) = z := by
    rw [Rat.floor_def']
    simp
  unfold round_ties_even
  simp [hf]

theorem cvtps_epi32_lane_intCast (z : Int) (h1 : -2147483648 ≤ z) (h2 : z ≤ 2147483647) :
    cvtps_epi32_lane (z : ℚ) = z := by
  unfold cvtps_epi32_lane
  simp only [round_ties_even_intCast, h1, h2, and_self, if_true]

set_option maxRecDepth 100000 in
theorem continuity_engine_mix :
    continuity_engine.mix = .ok ([0, 0, 0, 0], continuity_engine_after) := by
  simp [implementation.mix, mix_accumulate, continuity_engine, continuity_engine_after,
    mix_items, mix_item, resolve_prev, map_find, map_assign, format_4, CASPAR_ASSERT,
    accumulate_loop, quantize_loop, bind, Except.bind, _mm_load_si128, _mm_load_ps,
    _mm_store_ps, load4, store4]
  norm_num
  rfl

/-- A traversal call changes neither the format nor the continuity map. -/
theorem step_preserves (compose : frame_transform → frame_transform → frame_transform)
    (self e2 : implementation) (c : call) (h : self.step compose c = .ok e2) :
    e2.format_desc_ = self.format_desc_ ∧
    e2.prev_frame_transforms_ = self.prev_frame_transforms_ := by
  cases c with
  | begin t =>
    simp only [implementation.step, implementation.begin] at h
    split at h
    · cases h
    · cases h; exact ⟨rfl, rfl⟩
  | begin_frame f =>
    simp only [implementation.step, implementation.begin_frame] at h
    split at h
    · cases h
    · cases h; exact ⟨rfl, rfl⟩
  | visit f =>
    simp only [implementation.step, implementation.visit] at h
    split at h
    · cases h
    · split_ifs at h <;> (cases h; exact ⟨rfl, rfl⟩)
  | end_ =>
    simp only [implementation.step, implementation.end_] at h
    split at h
    · cases h
    · cases h; exact ⟨rfl, rfl⟩

/-- A traversal changes neither the format nor the continuity map. -/
theorem run_preserves (compose : frame_transform → frame_transform → frame_transform)
    (cs : List call) :
    ∀ (self e2 : implementation), self.run compose cs = .ok e2 →
      e2.format_desc_ = self.format_desc_ ∧
      e2.prev_frame_transforms_ = self.prev_frame_transforms_ := by
  induction cs with
  | nil =>
    intro self e2 h
    cases h
    exact ⟨rfl, rfl⟩
  | cons c cs ih =>
    intro self e2 h
    simp only [implementation.run] at h
    split at h
    · rename_i e1 h1
      obtain ⟨ha, hb⟩ := step_preserves compose self e1 c h1
      obtain ⟨hc, hd⟩ := ih e1 e2 h
      exact ⟨hc.trans ha, hd.trans hb⟩
    · cases h

/-- On a non-empty stack `visit` returns and leaves the stack as it was. -/
theorem visit_stack (self : implementation) (frame : write_frame)
    (hne : self.transform_stack_ ≠ []) :
    ∃ e2, (self.visit frame).map Prod.fst = .ok e2 ∧
      e2.transform_stack_ = self.transform_stack_ := by
  unfold implementation.visit
  cases hs : self.transform_stack_ with
  | nil => exact absurd hs hne
  | cons top rest =>
    simp only
    split_ifs
    · exact ⟨self, rfl, hs⟩
    · exact ⟨self, rfl, hs⟩
    · exact ⟨self, rfl, hs⟩
    · exact ⟨_, rfl, rfl⟩

/-- A prefix of a sequence in which every `end` is matched has every `end` matched. -/
theorem nesting_depth_take (cs : List call) :
    ∀ (d d2 n : Nat), nesting_depth cs d = some d2 →
      ∃ d3, nesting_depth (cs.take n) d = some d3 := by
  induction cs with
  | nil => intro d d2 n _; exact ⟨d, by simp [nesting_depth]⟩
  | cons c cs ih =>
    intro d d2 n h
    cases n with
    | zero => exact ⟨d, by simp [nesting_depth]⟩
    | succ n =>
      cases c with
      | begin t => exact ih (d + 1) d2 n h
      | begin_frame f => exact ih (d + 1) d2 n h
      | visit f => exact ih d d2 n h
      | end_ =>
        cases d with
        | zero => simp [nesting_depth] at h
        | succ d => exact ih d d2 n h

/-- A sequence of calls in which every `end` is matched, run on a stack that holds
`d` pushed entries above a non-empty base: the run returns, the base is untouched and
the number of pushed entries is the nesting depth at the end. -/
theorem run_nested (compose : frame_transform → frame_transform → frame_transform)
    (cs : List call) :
    ∀ (self : implementation) (d d2 : Nat) (pushed base : List frame_transform),
      self.transform_stack_ = pushed ++ base → pushed.length = d → base ≠ [] →
      nesting_depth cs d = some d2 →
      ∃ e2 pushed2, self.run compose cs = .ok e2 ∧
        e2.transform_stack_ = pushed2 ++ base ∧ pushed2.length = d2 := by
  induction cs with
  | nil =>
    intro self d d2 pushed base hs hl _ h
    simp only [nesting_depth, Option.some.injEq] at h
    exact ⟨self, pushed, rfl, hs, by omega⟩
  | cons c cs ih =>
    intro self d d2 pushed base hs hl hb h
    have hne : self.transform_stack_ ≠ [] := by
      rw [hs]
      intro hc
      exact hb (List.append_eq_nil.mp hc).2
    obtain ⟨top, rest, htr⟩ := List.exists_cons_of_ne_nil hne
    cases c with
    | begin t =>
      obtain ⟨e2, p2, h1, h2, h3⟩ := ih
        { self with transform_stack_ := compose top t :: top :: rest } (d + 1) d2
        (compose top t :: pushed) base (by simp only [List.cons_append, ← hs, htr])
        (by simp only [List.length_cons, hl]) hb h
      refine ⟨e2, p2, ?_, h2, h3⟩
      simp only [implementation.run, implementation.step, implementation.begin, htr]
      exact h1
    | begin_frame f =>
      obtain ⟨e2, p2, h1, h2, h3⟩ := ih
        { self with transform_stack_ := compose top f.get_frame_transform :: top :: rest }
        (d + 1) d2 (compose top f.get_frame_transform :: pushed) base
        (by simp only [List.cons_append, ← hs, htr])
        (by simp only [List.length_cons, hl]) hb h
      refine ⟨e2, p2, ?_, h2, h3⟩
      simp only [implementation.run, implementation.step, implementation.begin_frame, htr]
      exact h1
    | visit f =>
      obtain ⟨e1, hv1, hv2⟩ := visit_stack self f hne
      obtain ⟨e2, p2, h1, h2, h3⟩ := ih e1 d d2 pushed base (hv2.trans hs) hl hb h
      refine ⟨e2, p2, ?_, h2, h3⟩
      simp only [implementation.run, implementation.step, hv1]
      exact h1
    | end_ =>
      cases d with
      | zero => simp [nesting_depth] at h
      | succ d =>
        cases pushed with
        | nil => simp at hl
        | cons p ps =>
          have hrest : rest = ps ++ base := by
            rw [htr] at hs
            simp only [List.cons_append, List.cons.injEq] at hs
            exact hs.2
          obtain ⟨e2, p2, h1, h2, h3⟩ := ih { self with transform_stack_ := rest } d d2 ps
            base hrest (by simp only [List.length_cons] at hl; omega) hb h
          refine ⟨e2, p2, ?_, h2, h3⟩
          simp only [implementation.run, implementation.step, implementation.end_, htr]
          exact h1

theorem gap_calls_run_1 (pm : transform_map) :
    (gap_engine pm []).run volume_compose (gap_calls 1) = .ok (gap_engine pm (gap_items 1)) := by
  have h1 : ¬ ((1 : ℚ) < 0.002) := by norm_num
  simp [gap_engine, gap_calls, gap_items, implementation.run, implementation.step,
    implementation.begin, implementation.visit, implementation.end_, volume_compose,
    Except.map, format_32, h1]

theorem gap_calls_run_3 (pm : transform_map) :
    (gap_engine pm []).run volume_compose (gap_calls 3) = .ok (gap_engine pm (gap_items 3)) := by
  have h1 : ¬ ((1 : ℚ) < 0.002) := by norm_num
  have h3 : ¬ ((3 : ℚ) < 0.002) := by norm_num
  simp [gap_engine, gap_calls, gap_items, implementation.run, implementation.step,
    implementation.begin, implementation.visit, implementation.end_, volume_compose,
    Except.map, format_32, h1, h3]

theorem gap_calls_without_1_run (pm : transform_map) :
    (gap_engine pm []).run volume_compose gap_calls_without_1
      = .ok (gap_engine pm gap_items_without_1) := by
  have h1 : ¬ ((1 : ℚ) < 0.002) := by norm_num
  simp [gap_engine, gap_calls_without_1, gap_items_without_1, implementation.run,
    implementation.step, implementation.begin, implementation.visit, implementation.end_,
    volume_compose, Except.map, format_32, h1]

theorem gap_accumulated_after_gap :
    accumulated format_32 [(2, ⟨1, field_mode.progressive⟩)] (gap_items 3) 0 = ((34 : Int) : ℚ) := by
  have hm1 : is_mixed format_32 [(2, ⟨1, field_mode.progressive⟩)]
      ⟨1, ⟨1, field_mode.progressive⟩, List.replicate 32 16⟩ = true := by
    rw [is_mixed_iff]
    norm_num [resolve_prev, map_find, format_32]
  have hm2 : is_mixed format_32 [(2, ⟨1, field_mode.progressive⟩)]
      ⟨2, ⟨3, field_mode.progressive⟩, List.replicate 32 16⟩ = true := by
    rw [is_mixed_iff]
    norm_num [resolve_prev, map_find, format_32]
  simp only [accumulated, gap_items, List.map_cons, List.map_nil, List.sum_cons, List.sum_nil,
    contribution, hm1, hm2, if_true, applied_gain_eq, applied_alpha_eq]
  norm_num [resolve_prev, map_find, mix_delta, format_32]

theorem gap_accumulated_fresh :
    accumulated format_32 [] (gap_items 3) 0 = ((64 : Int) : ℚ) := by
  have hm1 : is_mixed format_32 []
      ⟨1, ⟨1, field_mode.progressive⟩, List.replicate 32 16⟩ = true := by
    rw [is_mixed_iff]
    norm_num [resolve_prev, map_find, format_32]
  have hm2 : is_mixed format_32 []
      ⟨2, ⟨3, field_mode.progressive⟩, List.replicate 32 16⟩ = true := by
    rw [is_mixed_iff]
    norm_num [resolve_prev, map_find, format_32]
  simp only [accumulated, gap_items, List.map_cons, List.map_nil, List.sum_cons, List.sum_nil,
    contribution, hm1, hm2, if_true, applied_gain_eq, applied_alpha_eq]
  norm_num [resolve_prev, map_find, mix_delta, format_32]

theorem calls_tag_9_run :
    continuity_engine_after.run volume_compose calls_tag_9 = .ok engine_collected_9 := by
  have h1 : ¬ ((2 : ℚ)⁻¹ < 0.002) := by norm_num
  simp [continuity_engine_after, calls_tag_9, engine_collected_9, implementation.run,
    implementation.step, implementation.begin, implementation.visit, implementation.end_,
    volume_compose, Except.map, format_4, h1]

theorem calls_tag_7_run :
    engine_after_9.run volume_compose calls_tag_7 = .ok engine_collected_7 := by
  have h1 : ¬ ((1 : ℚ) < 0.002) := by norm_num
  simp [engine_after_9, calls_tag_7, engine_collected_7, implementation.run,
    implementation.step, implementation.begin, implementation.visit, implementation.end_,
    volume_compose, Except.map, format_4, h1]

set_option maxRecDepth 100000 in
theorem engine_collected_9_mix :
    engine_collected_9.mix = .ok ([0, 0, 0, 0], engine_after_9) := by
  simp [implementation.mix, mix_accumulate, engine_collected_9, continuity_engine_after,
    engine_after_9, mix_items, mix_item, resolve_prev, map_find, map_assign, format_4,
    CASPAR_ASSERT, accumulate_loop, quantize_loop, bind, Except.bind, _mm_load_si128,
    _mm_load_ps, _mm_store_ps, load4, store4]
  norm_num

/-- The item step of `mix` reads the continuity map only through the transform it
resolves for the item. -/
theorem mix_item_congr (format_desc_ : video_format_desc) (pm pm2 : transform_map)
    (st : mix_state) (item : audio_item)
    (h : resolve_prev pm item = resolve_prev pm2 item) :
    mix_item format_desc_ pm st item = mix_item format_desc_ pm2 st item := by
  unfold mix_item
  rw [h]

theorem mix_items_congr (format_desc_ : video_format_desc) (pm pm2 : transform_map)
    (items : List audio_item) :
    ∀ (st : mix_state), (∀ item ∈ items, resolve_prev pm item = resolve_prev pm2 item) →
      mix_items format_desc_ pm items st = mix_items format_desc_ pm2 items st := by
  induction items with
  | nil => intro st _; rfl
  | cons item rest ih =>
    intro st h
    simp only [mix_items, bind, Except.bind]
    rw [mix_item_congr format_desc_ pm pm2 st item (h item (List.mem_cons_self _ _))]
    cases mix_item format_desc_ pm2 st item with
    | error f => rfl
    | ok st1 => exact ih st1 (fun it hit => h it (List.mem_cons_of_mem _ hit))

/-- Two engines with the same format and the same items, whose continuity maps resolve
the same previous transform for every item, return the same block or fail alike. -/
theorem mix_block_congr (e1 e2 : implementation)
    (hfd : e1.format_desc_ = e2.format_desc_) (hitems : e1.items = e2.items)
    (hres : ∀ item ∈ e1.items, resolve_prev e1.prev_frame_transforms_ item
              = resolve_prev e2.prev_frame_transforms_ item) :
    e1.mix.map Prod.fst = e2.mix.map Prod.fst := by
  unfold implementation.mix mix_accumulate
  rw [mix_items_congr e1.format_desc_ e1.prev_frame_transforms_ e2.prev_frame_transforms_
    e1.items _ hres, hfd, hitems]
  simp only [bind, Except.bind]
  cases mix_items e2.format_desc_ e2.prev_frame_transforms_ e2.items
      ⟨List.replicate (e2.format_desc_.audio_samples_per_frame + 128) 0, []⟩ with
  | error f => rfl
  | ok st =>
    simp only
    cases quantize_loop st.intermediate (e2.format_desc_.audio_samples_per_frame / 32) 0 0
        (List.replicate (e2.format_desc_.audio_samples_per_frame + 128) 0) with
    | error f => rfl
    | ok r => rfl

theorem resolve_prev_of_find_none (pm : transform_map) (item : audio_item)
    (h : map_find pm item.tag = none) : resolve_prev pm item = item.transform := by
  simp only [resolve_prev, h]

/-- The accumulation buffer that the item step of `mix` leaves does not depend on the
continuity map under construction. -/
theorem mix_item_intermediate (format_desc_ : video_format_desc) (pm : transform_map)
    (i : List ℚ) (m m2 : transform_map) (item : audio_item) :
    (mix_item format_desc_ pm ⟨i, m⟩ item).map (fun st => st.intermediate)
      = (mix_item format_desc_ pm ⟨i, m2⟩ item).map (fun st => st.intermediate) := by
  unfold mix_item
  simp only
  split_ifs
  · rfl
  · rfl
  · simp only [bind, Except.bind]
    cases CASPAR_ASSERT (format_desc_.audio_channels == 2) with
    | error f => rfl
    | ok u =>
      simp only
      cases CASPAR_ASSERT (format_desc_.audio_samples_per_frame % 4 == 0) with
      | error f => rfl
      | ok u2 =>
        simp only
        cases accumulate_loop item.audio_data
          (_mm_set_ps1 (resolve_prev pm item).volume) (_mm_set_ps1 item.transform.volume)
          (_mm_set_ps1 (1 / ((format_desc_.audio_samples_per_frame
            / format_desc_.audio_channels : Nat) : ℚ) * 2))
          (format_desc_.audio_samples_per_frame / 4) 0
          (_mm_setr_ps (1 / ((format_desc_.audio_samples_per_frame
            / format_desc_.audio_channels : Nat) : ℚ))
            (1 / ((format_desc_.audio_samples_per_frame
            / format_desc_.audio_channels : Nat) : ℚ)) 0 0) i with
        | error f => rfl
        | ok out => rfl

/-- The accumulation buffer that the item loop of `mix` leaves does not depend on the
continuity map under construction. -/
theorem mix_items_intermediate (format_desc_ : video_format_desc) (pm : transform_map)
    (items : List audio_item) :
    ∀ (i : List ℚ) (m m2 : transform_map),
      (mix_items format_desc_ pm items ⟨i, m⟩).map (fun st => st.intermediate)
        = (mix_items format_desc_ pm items ⟨i, m2⟩).map (fun st => st.intermediate) := by
  induction items with
  | nil => intro i m m2; rfl
  | cons item rest ih =>
    intro i m m2
    have h := mix_item_intermediate format_desc_ pm i m m2 item
    simp only [mix_items, bind, Except.bind]
    cases h1 : mix_item format_desc_ pm ⟨i, m⟩ item with
    | error f =>
      cases h2 : mix_item format_desc_ pm ⟨i, m2⟩ item with
      | error f2 =>
        rw [h1, h2] at h
        simp only [Except.map, Except.error.injEq] at h
        simp only [Except.map, h]
      | ok s2 => rw [h1, h2] at h; simp [Except.map] at h
    | ok s1 =>
      cases h2 : mix_item format_desc_ pm ⟨i, m2⟩ item with
      | error f2 => rw [h1, h2] at h; simp [Except.map] at h
      | ok s2 =>
        rw [h1, h2] at h
        simp only [Except.map, Except.ok.injEq] at h
        obtain ⟨i1, m1⟩ := s1
        obtain ⟨i2, m3⟩ := s2
        simp only at h
        subst h
        exact ih i1 m1 m3

theorem mix_items_append (format_desc_ : video_format_desc) (pm : transform_map)
    (l1 l2 : List audio_item) :
    ∀ (st : mix_state), mix_items format_desc_ pm (l1 ++ l2) st
      = (mix_items format_desc_ pm l1 st >>= fun st1 => mix_items format_desc_ pm l2 st1) := by
  induction l1 with
  | nil => intro st; rfl
  | cons item rest ih =>
    intro st
    simp only [List.cons_append, mix_items, bind, Except.bind]
    cases mix_item format_desc_ pm st item with
    | error f => rfl
    | ok st1 =>
      exact ih st1

/-- Removing from the item list an item that `mix` skips leaves the accumulation buffer
as it is. -/
theorem mix_items_remove_skipped (format_desc_ : video_format_desc) (pm : transform_map)
    (l1 l2 : List audio_item) (item : audio_item) (st : mix_state)
    (hskip : (item.transform.volume < 0.001 ∧ (resolve_prev pm item).volume < 0.001)
          ∨ item.audio_data.length ≠ format_desc_.audio_samples_per_frame) :
    (mix_items format_desc_ pm (l1 ++ item :: l2) st).map (fun s => s.intermediate)
      = (mix_items format_desc_ pm (l1 ++ l2) st).map (fun s => s.intermediate) := by
  rw [mix_items_append, mix_items_append]
  simp only [bind, Except.bind]
  cases mix_items format_desc_ pm l1 st with
  | error f => rfl
  | ok st1 =>
    simp only [mix_items, bind, Except.bind, mix_item_skipped format_desc_ pm st1 item hskip]
    obtain ⟨i1, m1⟩ := st1
    exact mix_items_intermediate format_desc_ pm l2 i1 _ m1

/-- The block `mix` returns is determined by the format and the accumulation buffer. -/
theorem mix_block_of_accumulate (e1 e2 : implementation)
    (hfd : e1.format_desc_ = e2.format_desc_)
    (h : (mix_accumulate e1).map (fun s => s.intermediate)
          = (mix_accumulate e2).map (fun s => s.intermediate)) :
    e1.mix.map Prod.fst = e2.mix.map Prod.fst := by
  unfold implementation.mix
  simp only [bind, Except.bind]
  cases h1 : mix_accumulate e1 with
  | error f =>
    cases h2 : mix_accumulate e2 with
    | error f2 =>
      rw [h1, h2] at h
      simp only [Except.map, Except.error.injEq] at h
      simp only [Except.map, h]
    | ok s2 => rw [h1, h2] at h; simp [Except.map] at h
  | ok s1 =>
    cases h2 : mix_accumulate e2 with
    | error f2 => rw [h1, h2] at h; simp [Except.map] at h
    | ok s2 =>
      rw [h1, h2] at h
      simp only [Except.map, Except.ok.injEq] at h
      simp only [h, hfd]
      cases quantize_loop s2.intermediate (e2.format_desc_.audio_samples_per_frame / 32) 0 0
        (List.replicate (e2.format_desc_.audio_samples_per_frame + 128) 0) with
      | error f => rfl
      | ok r => rfl

theorem last_transform_append_cons (l1 l2 : List audio_item) (item : audio_item) :
    last_transform (l1 ++ item :: l2) item.tag
      = some ((last_transform l2 item.tag).getD item.transform) := by
  unfold last_transform
  have hf : List.filter (fun it => decide (it.tag = item.tag)) (item :: l2)
      = item :: List.filter (fun it => decide (it.tag = item.tag)) l2 := by
    simp [List.filter_cons]
  rw [List.filter_append, hf, List.getLast?_append, List.getLast?_cons]
  cases List.getLast? (List.filter (fun it => decide (it.tag = item.tag)) l2) <;> simp

/-- Both engines return the same block when their blocks agree as results and the
format lets `mix` return. -/
theorem mix_same_block (e1 e2 : implementation)
    (hfd : e1.format_desc_ = e2.format_desc_)
    (hch : e1.format_desc_.audio_channels = 2)
    (h4 : e1.format_desc_.audio_samples_per_frame % 4 = 0)
    (h : e1.mix.map Prod.fst = e2.mix.map Prod.fst) :
    ∃ block s1 s2, e1.mix = .ok (block, s1) ∧ e2.mix = .ok (block, s2) := by
  obtain ⟨b1, hb1, -, -⟩ := mix_spec e1 hch h4
  obtain ⟨b2, hb2, -, -⟩ := mix_spec e2 (by rw [← hfd]; exact hch) (by rw [← hfd]; exact h4)
  rw [hb1, hb2] at h
  simp only [Except.map, Except.ok.injEq] at h
  subst h
  exact ⟨b1, _, _, hb1, hb2⟩

theorem duplicate_tag_calls_run :
    (implementation.new ⟨1, field_mode.progressive⟩ format_4).run volume_compose
        duplicate_tag_calls = .ok duplicate_tag_engine := by
  have h1 : ¬ ((1 : ℚ) < 0.002) := by norm_num
  have h2 : ¬ ((2 : ℚ)⁻¹ < 0.002) := by norm_num
  simp [implementation.new, duplicate_tag_calls, duplicate_tag_engine, implementation.run,
    implementation.step, implementation.begin, implementation.visit, implementation.end_,
    volume_compose, Except.map, format_4, h1, h2]

set_option maxRecDepth 100000 in
theorem duplicate_tag_engine_mix :
    duplicate_tag_engine.mix = .ok ([0, 0, 0, 0], duplicate_tag_engine_after) := by
  simp [implementation.mix, mix_accumulate, duplicate_tag_engine, duplicate_tag_engine_after,
    mix_items, mix_item, resolve_prev, map_find, map_assign, format_4, CASPAR_ASSERT,
    accumulate_loop, quantize_loop, bind, Except.bind, _mm_load_si128, _mm_load_ps,
    _mm_store_ps, load4, store4]
  norm_num

theorem skip_of_not_mixed (format_desc_ : video_format_desc) (pm : transform_map)
    (item : audio_item) (h : is_mixed format_desc_ pm item = false) :
    (item.transform.volume < 0.001 ∧ (resolve_prev pm item).volume < 0.001)
      ∨ item.audio_data.length ≠ format_desc_.audio_samples_per_frame := by
  by_contra hc
  push_neg at hc
  have hm : is_mixed format_desc_ pm item = true :=
    (is_mixed_iff _ _ _).mpr ⟨fun hs => absurd hs.2 (not_lt.mpr (hc.1 hs.1)), hc.2⟩
  rw [h] at hm
  exact Bool.false_ne_true hm

theorem not_mixed_of_skip (format_desc_ : video_format_desc) (pm : transform_map)
    (item : audio_item)
    (h : (item.transform.volume < 0.001 ∧ (resolve_prev pm item).volume < 0.001)
      ∨ item.audio_data.length ≠ format_desc_.audio_samples_per_frame) :
    is_mixed format_desc_ pm item = false := by
  cases hm : is_mixed format_desc_ pm item with
  | false => rfl
  | true =>
    obtain ⟨h1, h2⟩ := (is_mixed_iff _ _ _).mp hm
    rcases h with h | h
    · exact absurd h h1
    · exact absurd h2 h

/-- When every item is skipped the item loop of `mix` returns, on every format, and
leaves the accumulation buffer as it was. -/
theorem mix_items_unmixed (format_desc_ : video_format_desc) (pm : transform_map)
    (items : List audio_item) :
    ∀ (st : mix_state), (∀ item ∈ items, is_mixed format_desc_ pm item = false) →
      mix_items format_desc_ pm items st
        = .ok ⟨st.intermediate, record_transforms st.next_frame_transforms items⟩ := by
  induction items with
  | nil => intro st _; rfl
  | cons item rest ih =>
    intro st h
    simp only [mix_items, bind, Except.bind,
      mix_item_skipped format_desc_ pm st item
        (skip_of_not_mixed _ _ _ (h item (List.mem_cons_self _ _)))]
    rw [ih _ (fun it hit => h it (List.mem_cons_of_mem _ hit))]
    rfl

/-- An item that passes both skip tests on a format that is not two-channel or whose
block length is not a multiple of four fails an assertion. -/
theorem mix_item_assert (format_desc_ : video_format_desc) (pm : transform_map)
    (st : mix_state) (item : audio_item)
    (hbad : format_desc_.audio_channels ≠ 2 ∨ format_desc_.audio_samples_per_frame % 4 ≠ 0)
    (hm : is_mixed format_desc_ pm item = true) :
    mix_item format_desc_ pm st item = .error fault.assertion := by
  obtain ⟨hsil, hlen⟩ := (is_mixed_iff _ _ _).mp hm
  unfold mix_item
  simp only [hsil, if_false, hlen, ne_eq, not_true_eq_false, bind, Except.bind, CASPAR_ASSERT]
  by_cases hch : format_desc_.audio_channels = 2
  · have h4 : format_desc_.audio_samples_per_frame % 4 ≠ 0 := by
      rcases hbad with h | h
      · exact absurd hch h
      · exact h
    simp [hch, h4]
  · simp [hch]

theorem mix_items_assert (format_desc_ : video_format_desc) (pm : transform_map)
    (hbad : format_desc_.audio_channels ≠ 2 ∨ format_desc_.audio_samples_per_frame % 4 ≠ 0)
    (items : List audio_item) :
    ∀ (st : mix_state), (∃ item ∈ items, is_mixed format_desc_ pm item = true) →
      mix_items format_desc_ pm items st = .error fault.assertion := by
  induction items with
  | nil => intro st h; obtain ⟨_, hmem, _⟩ := h; cases hmem
  | cons item rest ih =>
    intro st h
    simp only [mix_items, bind, Except.bind]
    cases hm : is_mixed format_desc_ pm item with
    | true => rw [mix_item_assert format_desc_ pm st item hbad hm]
    | false =>
      rw [mix_item_skipped format_desc_ pm st item (skip_of_not_mixed _ _ _ hm)]
      apply ih
      obtain ⟨it, hmem, hit⟩ := h
      rcases List.mem_cons.mp hmem with he | hr
      · subst he; rw [hm] at hit; cases hit
      · exact ⟨it, hr, hit⟩

/-- The quantize loop of `mix` on a zero accumulation buffer leaves the zero result
buffer as it is, for every block length. -/
theorem quantize_loop_zero (S : Nat) :
    quantize_loop (List.replicate (S + 128) 0) (S / 32) 0 0 (List.replicate (S + 128) 0)
      = .ok (List.replicate (S + 128) 0) := by
  obtain ⟨out, ho, holen, hoget⟩ := quantize_loop_spec (List.replicate (S + 128) 0)
    (S / 32) 0 0 (List.replicate (S + 128) 0)
    (by simp only [List.length_replicate]; omega) (by simp only [List.length_replicate]; omega)
  have hc : cvtps_epi32_lane (0 : ℚ) = 0 := by
    exact_mod_cast cvtps_epi32_lane_intCast 0 (by decide) (by decide)
  have : out = List.replicate (S + 128) 0 := by
    apply List.ext_getElem?
    intro j
    rw [hoget j]
    by_cases hr : 4 * 0 ≤ j ∧ j < 4 * (0 + 8 * (S / 32))
    · have hj : j < S + 128 := by omega
      have hj2 : j - 4 * 0 + 4 * 0 < S + 128 := by omega
      rw [if_pos hr, List.getD_eq_getElem?_getD, List.getElem?_replicate_of_lt hj2,
        Option.getD_some, hc, List.getElem?_replicate_of_lt hj]
    · rw [if_neg hr]
  rw [ho, this]

/-- When every item is skipped `mix` returns a block of zeros, on every format. -/
theorem mix_unmixed (self : implementation)
    (h : ∀ item ∈ self.items,
      is_mixed self.format_desc_ self.prev_frame_transforms_ item = false) :
    self.mix = .ok (List.replicate self.format_desc_.audio_samples_per_frame 0,
      { self with items := []
                  prev_frame_transforms_ := record_transforms [] self.items }) := by
  unfold implementation.mix mix_accumulate
  rw [mix_items_unmixed _ _ _ _ h]
  simp only [bind, Except.bind, quantize_loop_zero, List.take_replicate]
  congr 3
  omega

/-- When some item is mixed on a format that is not two-channel or whose block length
is not a multiple of four, `mix` fails an assertion. -/
theorem mix_assert (self : implementation)
    (hbad : self.format_desc_.audio_channels ≠ 2
      ∨ self.format_desc_.audio_samples_per_frame % 4 ≠ 0)
    (h : ∃ item ∈ self.items,
      is_mixed self.format_desc_ self.prev_frame_transforms_ item = true) :
    self.mix = .error fault.assertion := by
  unfold implementation.mix mix_accumulate
  rw [mix_items_assert _ _ hbad _ _ h]
  rfl

theorem unchecked_format_engine_unmixed :
    ∀ item ∈ unchecked_format_engine.items,
      is_mixed unchecked_format_engine.format_desc_
        unchecked_format_engine.prev_frame_transforms_ item = false := by
  intro item hmem
  apply not_mixed_of_skip
  simp only [unchecked_format_engine, List.mem_cons, List.mem_singleton, List.not_mem_nil,
    or_false] at hmem
  rcases hmem with h | h
  · subst h; right; decide
  · subst h; left; norm_num [resolve_prev, map_find, unchecked_format_engine]

theorem accumulated_perm (format_desc_ : video_format_desc) (pm : transform_map)
    (l1 l2 : List audio_item) (h : l1.Perm l2) (j : Nat) :
    accumulated format_desc_ pm l1 j = accumulated format_desc_ pm l2 j := by
  unfold accumulated
  exact (h.map _).sum_eq

/-- A load whose four indices are not all inside the buffer faults. -/
theorem load4_fault {α : Type} (buf : List α) (i : Nat) (h : buf.length < i + 4) :
    load4 buf i = .error fault.access := by
  have h3 : buf[i + 3]? = none := List.getElem?_eq_none (by omega)
  unfold load4
  rw [h3]
  split
  · rename_i heq
    simp at heq
  · rfl

/-- A store whose four indices are not all inside the buffer faults. -/
theorem store4_fault {α : Type} (buf : List α) (i : Nat) (v : m128 α)
    (h : buf.length < i + 4) : store4 buf i v = .error fault.access := by
  unfold store4
  rw [if_neg (by omega)]

/-- A traversal call keeps the items audible. -/
theorem step_items_audible (compose : frame_transform → frame_transform → frame_transform)
    (self e2 : implementation) (c : call) (hinv : items_audible self)
    (h : self.step compose c = .ok e2) : items_audible e2 := by
  cases c with
  | begin t =>
    simp only [implementation.step, implementation.begin] at h
    split at h
    · cases h
    · cases h; exact hinv
  | begin_frame f =>
    simp only [implementation.step, implementation.begin_frame] at h
    split at h
    · cases h
    · cases h; exact hinv
  | visit f =>
    simp only [implementation.step, implementation.visit] at h
    split at h
    · cases h
    · rename_i top rest hs
      split_ifs at h with h1 h2 h3
      · cases h; exact hinv
      · cases h; exact hinv
      · cases h; exact hinv
      · cases h
        push_neg at h3
        intro item hmem
        simp only [List.mem_append, List.mem_singleton] at hmem
        rcases hmem with hm | hm
        · exact hinv item hm
        · subst hm
          exact ⟨h3.1, h3.2⟩
  | end_ =>
    simp only [implementation.step, implementation.end_] at h
    split at h
    · cases h
    · cases h; exact hinv

/-- A call of an entry point keeps the items audible. -/
theorem step_call_items_audible
    (compose : frame_transform → frame_transform → frame_transform)
    (self e2 : implementation) (c : engine_call) (hinv : items_audible self)
    (h : self.step_call compose c = .ok e2) : items_audible e2 := by
  cases c with
  | traversal c => exact step_items_audible compose self e2 c hinv h
  | mix =>
    simp only [implementation.step_call] at h
    cases hm : self.mix with
    | error f => rw [hm] at h; cases h
    | ok r =>
      obtain ⟨block, e3⟩ := r
      rw [hm] at h
      simp only [Except.map, Except.ok.injEq] at h
      subst h
      rw [mix_ok_state self block e3 hm]
      intro item hmem
      cases hmem

theorem run_calls_items_audible
    (compose : frame_transform → frame_transform → frame_transform)
    (calls : List engine_call) :
    ∀ (self e2 : implementation), items_audible self →
      self.run_calls compose calls = .ok e2 → items_audible e2 := by
  induction calls with
  | nil => intro self e2 hinv h; cases h; exact hinv
  | cons c cs ih =>
    intro self e2 hinv h
    simp only [implementation.run_calls] at h
    split at h
    · rename_i e1 h1
      exact ih e1 e2 (step_call_items_audible compose self e1 c hinv h1) h
    · cases h

set_option maxRecDepth 100000 in
theorem two_cycle_calls_run :
    (implementation.new ⟨1, field_mode.progressive⟩ format_4).run_calls volume_compose
        two_cycle_calls = .ok engine_collected_7 := by
  have h1 : ¬ ((1 : ℚ) < 0.002) := by norm_num
  have h2 : ¬ ((2 : ℚ)⁻¹ < 0.002) := by norm_num
  have h3 : ¬ ((2 : ℚ)⁻¹ < 0.001) := by norm_num
  simp [implementation.new, two_cycle_calls, engine_collected_7, engine_after_9,
    implementation.run_calls, implementation.step_call, implementation.step,
    implementation.begin, implementation.visit, implementation.end_, volume_compose,
    Except.map, format_4, h1, h2, h3,
    implementation.mix, mix_accumulate, mix_items, mix_item, resolve_prev, map_find,
    map_assign, CASPAR_ASSERT, accumulate_loop, quantize_loop, bind, Except.bind,
    _mm_load_si128, _mm_load_ps, _mm_store_ps, load4, store4]

/-- Under a composed volume below 0.002 `visit` leaves the engine and the leaf as they
were. -/
theorem visit_below_threshold (self : implementation) (frame : write_frame)
    (top : frame_transform) (rest : List frame_transform)
    (hstack : self.transform_stack_ = top :: rest) (hvol : top.volume < 0.002) :
    self.visit frame = .ok (self, frame) := by
  unfold implementation.visit
  rw [hstack]
  simp only
  split_ifs with h1 h2 h3
  · rfl
  · rfl
  · rfl
  · exact absurd (Or.inl hvol) h3

/-- A traversal call leaves the item list as it was or appends one item that carries
the tag of the visited leaf. -/
theorem step_items (compose : frame_transform → frame_transform → frame_transform)
    (self e2 : implementation) (c : call) (h : self.step compose c = .ok e2) :
    e2.items = self.items ∨
      ∃ frame top, c = call.visit frame ∧ e2.items = self.items ++ [⟨frame.tag, top,
        frame.audio_data⟩] := by
  cases c with
  | begin t =>
    simp only [implementation.step, implementation.begin] at h
    split at h
    · cases h
    · cases h; exact Or.inl rfl
  | begin_frame f =>
    simp only [implementation.step, implementation.begin_frame] at h
    split at h
    · cases h
    · cases h; exact Or.inl rfl
  | visit f =>
    simp only [implementation.step, implementation.visit] at h
    split at h
    · cases h
    · rename_i top rest hs
      split_ifs at h
      · cases h; exact Or.inl rfl
      · cases h; exact Or.inl rfl
      · cases h; exact Or.inl rfl
      · cases h; exact Or.inr ⟨f, top, rfl, rfl⟩
  | end_ =>
    simp only [implementation.step, implementation.end_] at h
    split at h
    · cases h
    · cases h; exact Or.inl rfl

/-- A traversal in which every leaf of a tag is visited under a composed volume below
0.002 collects no item of that tag. -/
theorem run_collects_no_silent_tag
    (compose : frame_transform → frame_transform → frame_transform) (tag : Nat)
    (calls : List call) :
    ∀ (e1 e2 : implementation), (∀ item ∈ e1.items, item.tag ≠ tag) →
      e1.run compose calls = .ok e2 →
      (∀ n frame e, calls[n]? = some (call.visit frame) → frame.tag = tag →
        e1.run compose (calls.take n) = .ok e →
        ∃ top rest, e.transform_stack_ = top :: rest ∧ top.volume < 0.002) →
      ∀ item ∈ e2.items, item.tag ≠ tag := by
  induction calls with
  | nil =>
    intro e1 e2 hno hrun _
    cases hrun
    exact hno
  | cons c cs ih =>
    intro e1 e2 hno hrun hsilent
    simp only [implementation.run] at hrun
    split at hrun
    · rename_i e1b hstep
      apply ih e1b e2 _ hrun
      · intro n frame e hn htag hr
        apply hsilent (n + 1) frame e (by simpa using hn) htag
        simp only [List.take_succ_cons, implementation.run, hstep]
        exact hr
      · rcases step_items compose e1 e1b c hstep with hi | ⟨frame, top, hc, hi⟩
        · rw [hi]; exact hno
        · by_cases htag : frame.tag = tag
          · obtain ⟨top2, rest2, hs, hv⟩ := hsilent 0 frame e1 (by simp [hc]) htag rfl
            have hv2 := visit_below_threshold e1 frame top2 rest2 hs hv
            rw [hc] at hstep
            simp only [implementation.step, hv2, Except.map] at hstep
            cases hstep
            exact hno
          · rw [hi]
            intro item hmem
            simp only [List.mem_append, List.mem_singleton] at hmem
            rcases hmem with hm | hm
            · exact hno item hm
            · subst hm; exact htag
    · cases hrun

theorem fade_calls_run :
    fade_engine.run volume_compose fade_calls = .ok fade_engine_collected := by
  have h1 : ((1000 : ℚ)⁻¹ < 0.002) := by norm_num
  have h2 : ¬ ((1 : ℚ) < 0.002) := by norm_num
  simp [fade_engine, fade_calls, fade_engine_collected, implementation.run,
    implementation.step, implementation.begin, implementation.visit, implementation.end_,
    volume_compose, Except.map, format_4, h1, h2]

theorem fade_calls_silent :
    ∀ n frame e, fade_calls[n]? = some (call.visit frame) → frame.tag = 7 →
      fade_engine.run volume_compose (fade_calls.take n) = .ok e →
      ∃ top rest, e.transform_stack_ = top :: rest ∧ top.volume < 0.002 := by
  intro n frame e hn htag hr
  have hlt : n < 6 := by
    by_contra hc
    rw [List.getElem?_eq_none (by simpa [fade_calls] using hc)] at hn
    cases hn
  interval_cases n
  all_goals simp [fade_calls] at hn
  · subst hn
    simp [fade_engine, fade_calls, implementation.run, implementation.step,
      implementation.begin, volume_compose] at hr
    subst hr
    exact ⟨_, _, rfl, by norm_num⟩
  · subst hn
    simp at htag

/-- The lane of `alpha_ps` used for a sample below the block length lies in `[0, 1)`. -/
theorem applied_alpha_bounds (format_desc_ : video_format_desc) (j : Nat)
    (hch : format_desc_.audio_channels = 2)
    (h4 : format_desc_.audio_samples_per_frame % 4 = 0)
    (hj : j < format_desc_.audio_samples_per_frame) :
    0 ≤ applied_alpha format_desc_ j ∧ applied_alpha format_desc_ j < 1 := by
  have hk : 2 * (j / 4) + (if j % 4 < 2 then 1 else 0)
      < format_desc_.audio_samples_per_frame / 2 := by
    split_ifs <;> omega
  have hm : (0 : ℚ) < ((format_desc_.audio_samples_per_frame / 2 : Nat) : ℚ) := by
    have : 0 < format_desc_.audio_samples_per_frame / 2 := by omega
    exact_mod_cast this
  have hkq : ((2 * (j / 4) + (if j % 4 < 2 then 1 else 0) : Nat) : ℚ)
      < ((format_desc_.audio_samples_per_frame / 2 : Nat) : ℚ) := by
    exact_mod_cast hk
  rw [applied_alpha_eq]
  unfold mix_delta
  rw [hch, mul_one_div]
  refine ⟨div_nonneg (Nat.cast_nonneg _) hm.le, ?_⟩
  rw [div_lt_one hm]
  exact hkq

/-- A crossfade with alpha in `[0, 1]` stays between the two volumes. -/
theorem crossfade_between (p n a : ℚ) (h0 : 0 ≤ a) (h1 : a ≤ 1) :
    min p n ≤ n * a + (p - p * a) ∧ n * a + (p - p * a) ≤ max p n := by
  rcases le_total p n with h | h
  · rw [min_eq_left h, max_eq_right h]
    constructor
    · nlinarith [mul_nonneg (sub_nonneg.mpr h) h0]
    · nlinarith [mul_nonneg (sub_nonneg.mpr h) (sub_nonneg.mpr h1)]
  · rw [min_eq_right h, max_eq_left h]
    constructor
    · nlinarith [mul_nonneg (sub_nonneg.mpr h) (sub_nonneg.mpr h1)]
    · nlinarith [mul_nonneg (sub_nonneg.mpr h) h0]

/-- The accumulated sum of `ramp_engine_32 v1 v2` at sample `j`, for audible volumes:
the sample value 16 times the crossfade of the code at the lane of `alpha_ps` for `j`. -/
theorem ramp_engine_32_accumulated (v1 v2 : ℚ) (h1 : ¬ v1 < 0.001) (j : Nat) (hj : j < 32) :
    accumulated format_32 (ramp_engine_32 v1 v2).prev_frame_transforms_
        (ramp_engine_32 v1 v2).items j
      = 16 * (v2 * applied_alpha format_32 j + (v1 - v1 * applied_alpha format_32 j)) := by
  have hm : is_mixed format_32 [(7, ⟨v1, field_mode.progressive⟩)]
      ⟨7, ⟨v2, field_mode.progressive⟩, List.replicate 32 16⟩ = true := by
    rw [is_mixed_iff]
    refine ⟨fun h => h1 ?_, by simp [format_32]⟩
    simpa [resolve_prev, map_find] using h.2
  simp only [accumulated, ramp_engine_32, List.map_cons, List.map_nil, List.sum_cons,
    List.sum_nil, contribution, hm, if_true, applied_gain_eq, resolve_prev, map_find,
    List.getD_eq_getElem?_getD, List.getElem?_replicate_of_lt hj, Option.getD_some]
  norm_num

/-- The elements of the block that `mix` returns for `ramp_engine_32 v1 v2`. -/
theorem ramp_engine_32_block (v1 v2 : ℚ) (h1 : ¬ v1 < 0.001) :
    ∃ block e2, (ramp_engine_32 v1 v2).mix = .ok (block, e2) ∧
      ∀ j, j < 32 → block[j]? = some (cvtps_epi32_lane
        (16 * (v2 * applied_alpha format_32 j + (v1 - v1 * applied_alpha format_32 j)))) := by
  obtain ⟨block, hb, -, hget⟩ := mix_spec (ramp_engine_32 v1 v2) rfl
    (by simp [ramp_engine_32, format_32])
  refine ⟨block, _, hb, ?_⟩
  intro j hj
  have h := hget j hj
  rw [show (ramp_engine_32 v1 v2).format_desc_ = format_32 from rfl,
    ramp_engine_32_accumulated v1 v2 h1 j hj] at h
  rw [h, if_pos (by simpa [format_32] using hj)]

/-! ## The claims -/

/-- C1, the code at the failing inputs. A source going from volume 1 to volume 3 on a
two-channel engine. With four samples of value 100 per frame, `mix` adds 200 to the
accumulators of the first frame-sample (alpha is `delta = 1/2` there, not 0) and 100 to
those of the second (alpha is 0 there), where the specified formula
`input[j] * (prev.volume*(1-alpha) + next.volume*alpha)` with `alpha = i / frameCount`
gives 100 for the first frame-sample and 200 for the second. With 32 samples of value
16 per frame, the block `mix` returns starts 18, 18, 16, 16, where the specified
formula gives 16, 16, 18, 18. -/
theorem ramp_up_first_frame_alpha_is_delta :
    (∃ st, mix_accumulate ramp_up_engine = .ok st ∧
      st.intermediate[0]? = some 200 ∧ st.intermediate[1]? = some 200 ∧
      st.intermediate[2]? = some 100 ∧ st.intermediate[3]? = some 100) ∧
    applied_alpha format_4 0 = 1 / 2 ∧ applied_alpha format_4 1 = 1 / 2 ∧
    spec_alpha format_4 0 = 0 ∧ spec_alpha format_4 1 = 0 ∧
    (100 : ℚ) * spec_gain format_4 ⟨1, field_mode.progressive⟩ ⟨3, field_mode.progressive⟩ 0
      = 100 ∧
    (100 : ℚ) * spec_gain format_4 ⟨1, field_mode.progressive⟩ ⟨3, field_mode.progressive⟩ 2
      = 200 ∧
    (∃ block e2, (ramp_engine_32 1 3).mix = .ok (block, e2) ∧
      block[0]? = some 18 ∧ block[1]? = some 18 ∧
      block[2]? = some 16 ∧ block[3]? = some 16) ∧
    (16 : ℚ) * spec_gain format_32 ⟨1, field_mode.progressive⟩ ⟨3, field_mode.progressive⟩ 0
      = 16 ∧
    (16 : ℚ) * spec_gain format_32 ⟨1, field_mode.progressive⟩ ⟨3, field_mode.progressive⟩ 2
      = 18 := by
  refine ⟨?_, ?_, ?_, ?_, ?_, ?_, ?_, ?_, ?_, ?_⟩
  · obtain ⟨out, ho, -, hoget⟩ := mix_item_mixed format_4 [(7, ⟨1, field_mode.progressive⟩)]
      ⟨List.replicate (4 + 128) 0, []⟩ ⟨7, ⟨3, field_mode.progressive⟩, [100, 100, 100, 100]⟩
      rfl (by decide) (by norm_num [resolve_prev, map_find]) rfl (by simp [format_4])
    refine ⟨⟨out, map_assign [] 7 ⟨3, field_mode.progressive⟩⟩, ?_, ?_, ?_, ?_, ?_⟩
    · simp only [mix_accumulate, ramp_up_engine, mix_items, bind, Except.bind]
      rw [show format_4.audio_samples_per_frame + 128 = 4 + 128 from rfl, ho]
    all_goals
      rw [hoget]
      norm_num [applied_gain_eq, applied_alpha_eq, mix_delta, format_4, resolve_prev, map_find]
  · norm_num [applied_alpha_eq, mix_delta, format_4]
  · norm_num [applied_alpha_eq, mix_delta, format_4]
  · norm_num [spec_alpha, format_4]
  · norm_num [spec_alpha, format_4]
  · norm_num [spec_gain, spec_alpha, format_4]
  · norm_num [spec_gain, spec_alpha, format_4]
  · obtain ⟨block, e2, hb, hget⟩ := ramp_engine_32_block 1 3 (by norm_num)
    have e18 : ∀ j, j < 2 →
        (16 : ℚ) * (3 * applied_alpha format_32 j + (1 - 1 * applied_alpha format_32 j))
          = ((18 : Int) : ℚ) := by
      intro j hj
      interval_cases j <;> norm_num [applied_alpha_eq, mix_delta, format_32]
    have e16 : ∀ j, 2 ≤ j → j < 4 →
        (16 : ℚ) * (3 * applied_alpha format_32 j + (1 - 1 * applied_alpha format_32 j))
          = ((16 : Int) : ℚ) := by
      intro j hj hj2
      interval_cases j <;> norm_num [applied_alpha_eq, mix_delta, format_32]
    refine ⟨block, e2, hb, ?_, ?_, ?_, ?_⟩
    · rw [hget 0 (by decide), e18 0 (by decide),
        cvtps_epi32_lane_intCast 18 (by decide) (by decide)]
    · rw [hget 1 (by decide), e18 1 (by decide),
        cvtps_epi32_lane_intCast 18 (by decide) (by decide)]
    · rw [hget 2 (by decide), e16 2 (by decide) (by decide),
        cvtps_epi32_lane_intCast 16 (by decide) (by decide)]
    · rw [hget 3 (by decide), e16 3 (by decide) (by decide),
        cvtps_epi32_lane_intCast 16 (by decide) (by decide)]
  · norm_num [spec_gain, spec_alpha, format_32]
  · norm_num [spec_gain, spec_alpha, format_32]

/-- C2, the code at the failing inputs. A source going from volume `v1 = 3` to volume
`v2 = 1` on a two-channel engine. With eight samples of value 100 per frame, the gains
`mix` applies at frame indices 0, 1, 2, 3 are 5/2, 3, 3/2, 2 (the accumulators hold
250, 300, 150, 200). With 32 samples of value 16 per frame, the block `mix` returns
holds 46, 48, 42, 44 at frame indices 0, 1, 2, 3. In both the gain at frame index 0 is
not `v1` and the gain rises from frame 0 to frame 1 although `v1 > v2`. -/
theorem ramp_down_gain_is_not_monotonic :
    (∃ st, mix_accumulate ramp_down_engine = .ok st ∧
      st.intermediate[2 * 0]? = some 250 ∧ st.intermediate[2 * 1]? = some 300 ∧
      st.intermediate[2 * 2]? = some 150 ∧ st.intermediate[2 * 3]? = some 200) ∧
    applied_gain format_8 ⟨3, field_mode.progressive⟩ ⟨1, field_mode.progressive⟩ (2 * 0)
      = 5 / 2 ∧
    applied_gain format_8 ⟨3, field_mode.progressive⟩ ⟨1, field_mode.progressive⟩ (2 * 1)
      = 3 ∧
    applied_gain format_8 ⟨3, field_mode.progressive⟩ ⟨1, field_mode.progressive⟩ (2 * 2)
      = 3 / 2 ∧
    applied_gain format_8 ⟨3, field_mode.progressive⟩ ⟨1, field_mode.progressive⟩ (2 * 3)
      = 2 ∧
    (∃ block e2, (ramp_engine_32 3 1).mix = .ok (block, e2) ∧
      block[2 * 0]? = some 46 ∧ block[2 * 1]? = some 48 ∧
      block[2 * 2]? = some 42 ∧ block[2 * 3]? = some 44) := by
  refine ⟨?_, ?_, ?_, ?_, ?_, ?_⟩
  · obtain ⟨out, ho, -, hoget⟩ := mix_item_mixed format_8 [(7, ⟨3, field_mode.progressive⟩)]
      ⟨List.replicate (8 + 128) 0, []⟩
      ⟨7, ⟨1, field_mode.progressive⟩, [100, 100, 100, 100, 100, 100, 100, 100]⟩
      rfl (by decide) (by norm_num [resolve_prev, map_find]) rfl (by simp [format_8])
    refine ⟨⟨out, map_assign [] 7 ⟨1, field_mode.progressive⟩⟩, ?_, ?_, ?_, ?_, ?_⟩
    · simp only [mix_accumulate, ramp_down_engine, mix_items, bind, Except.bind]
      rw [show format_8.audio_samples_per_frame + 128 = 8 + 128 from rfl, ho]
    all_goals
      rw [hoget]
      norm_num [applied_gain_eq, applied_alpha_eq, mix_delta, format_8, resolve_prev, map_find]
  · norm_num [applied_gain_eq, applied_alpha_eq, mix_delta, format_8]
  · norm_num [applied_gain_eq, applied_alpha_eq, mix_delta, format_8]
  · norm_num [applied_gain_eq, applied_alpha_eq, mix_delta, format_8]
  · norm_num [applied_gain_eq, applied_alpha_eq, mix_delta, format_8]
  · obtain ⟨block, e2, hb, hget⟩ := ramp_engine_32_block 3 1 (by norm_num)
    have e0 : (16 : ℚ) * (1 * applied_alpha format_32 0 + (3 - 3 * applied_alpha format_32 0))
        = ((46 : Int) : ℚ) := by
      norm_num [applied_alpha_eq, mix_delta, format_32]
    have e2 : (16 : ℚ) * (1 * applied_alpha format_32 2 + (3 - 3 * applied_alpha format_32 2))
        = ((48 : Int) : ℚ) := by
      norm_num [applied_alpha_eq, mix_delta, format_32]
    have e4 : (16 : ℚ) * (1 * applied_alpha format_32 4 + (3 - 3 * applied_alpha format_32 4))
        = ((42 : Int) : ℚ) := by
      norm_num [applied_alpha_eq, mix_delta, format_32]
    have e6 : (16 : ℚ) * (1 * applied_alpha format_32 6 + (3 - 3 * applied_alpha format_32 6))
        = ((44 : Int) : ℚ) := by
      norm_num [applied_alpha_eq, mix_delta, format_32]
    refine ⟨block, _, hb, ?_, ?_, ?_, ?_⟩
    · rw [hget 0 (by decide), e0, cvtps_epi32_lane_intCast 46 (by decide) (by decide)]
    · rw [hget 2 (by decide), e2, cvtps_epi32_lane_intCast 48 (by decide) (by decide)]
    · rw [hget 4 (by decide), e4, cvtps_epi32_lane_intCast 42 (by decide) (by decide)]
    · rw [hget 6 (by decide), e6, cvtps_epi32_lane_intCast 44 (by decide) (by decide)]

/-- C3, the code at the failing input. On a two-channel engine with 36 samples per
frame and one source of volume 1 whose samples all have value 100, every accumulator
`j < 36` holds 100, whose nearest integer is 100; `mix` returns a block of 36 elements
whose element 0 is 100 and whose elements 32 and 35 are 0: the quantize loop runs
`36 / 32 = 1` time and converts only the first 32 accumulators. -/
theorem tail_of_block_is_not_quantized :
    (∃ block e2, tail_engine.mix = .ok (block, e2) ∧ block.length = 36 ∧
      block[0]? = some 100 ∧ block[31]? = some 100 ∧
      block[32]? = some 0 ∧ block[35]? = some 0) ∧
    (∀ j, j < 36 → accumulated format_36 [] tail_engine.items j = 100) ∧
    round_ties_even 100 = 100 := by
  have hacc : ∀ j, j < 36 → accumulated format_36 [] tail_engine.items j = 100 := by
    intro j hj
    have hm : is_mixed format_36 [] ⟨7, ⟨1, field_mode.progressive⟩, List.replicate 36 100⟩
        = true := by
      rw [is_mixed_iff]
      norm_num [resolve_prev, map_find, format_36]
    simp only [accumulated, tail_engine, List.map_cons, List.map_nil, List.sum_cons,
      List.sum_nil, contribution, hm, if_true, applied_gain_eq, resolve_prev, map_find,
      List.getD_eq_getElem?_getD, List.getElem?_replicate_of_lt hj, Option.getD_some]
    norm_num
  refine ⟨?_, hacc, by exact_mod_cast round_ties_even_intCast 100⟩
  obtain ⟨block, hb, hlen, hget⟩ := mix_spec tail_engine rfl (by decide)
  have hc : cvtps_epi32_lane (100 : ℚ) = 100 := by
    exact_mod_cast cvtps_epi32_lane_intCast 100 (by decide) (by decide)
  have hfd : tail_engine.format_desc_ = format_36 := rfl
  have hpm : tail_engine.prev_frame_transforms_ = [] := rfl
  have hS : tail_engine.format_desc_.audio_samples_per_frame = 36 := rfl
  rw [hfd, hpm] at hget
  refine ⟨block, _, hb, hlen, ?_, ?_, ?_, ?_⟩
  · rw [hget 0 (by decide), hacc 0 (by decide), hc]; rfl
  · rw [hget 31 (by decide), hacc 31 (by decide), hc]; rfl
  · rw [hget 32 (by decide)]; rfl
  · rw [hget 35 (by decide)]; rfl

/-- C4. On a two-channel format whose block length is a multiple of four `mix` returns;
and whenever `mix` returns, the item list is empty and the continuity map holds, for
every tag, the transform of the last collected item with that tag and nothing else:
a tag has an entry exactly when an item carried it, and a tag that no item carried has
no entry, whatever the previous continuity map held. -/
theorem mix_replaces_continuity (self : implementation) :
    (self.format_desc_.audio_channels = 2 →
      self.format_desc_.audio_samples_per_frame % 4 = 0 →
      ∃ block e2, self.mix = .ok (block, e2)) ∧
    ∀ block e2, self.mix = .ok (block, e2) →
      e2.items = [] ∧
      (∀ tag, map_find e2.prev_frame_transforms_ tag = last_transform self.items tag) ∧
      (∀ tag, (map_find e2.prev_frame_transforms_ tag).isSome
                ↔ ∃ item ∈ self.items, item.tag = tag) ∧
      (∀ tag, (∀ item ∈ self.items, item.tag ≠ tag) →
                map_find e2.prev_frame_transforms_ tag = none) := by
  refine ⟨?_, ?_⟩
  · intro hch h4
    obtain ⟨block, hb, -, -⟩ := mix_spec self hch h4
    exact ⟨block, _, hb⟩
  · intro block e2 h
    have hfind : ∀ tag, map_find e2.prev_frame_transforms_ tag
        = last_transform self.items tag := by
      intro tag
      rw [mix_ok_state self block e2 h]
      simp only [map_find_record_transforms, map_find, Option.or_none]
    refine ⟨by rw [mix_ok_state self block e2 h], hfind, ?_, ?_⟩
    · intro tag
      rw [hfind tag, ← not_iff_not, Bool.not_eq_true, Option.not_isSome,
        Option.isNone_iff_eq_none, last_transform_eq_none]
      push_neg
      rfl
    · intro tag hno
      rw [hfind tag]
      exact (last_transform_eq_none _ _).mpr hno

/-- C4 at a concrete input: the continuity map held tags 3 and 7; tag 7 was collected
twice and tag 9 once, with a buffer of the wrong length. -/
theorem mix_replaces_continuity_witness :
    (∃ block e2, continuity_engine.mix = .ok (block, e2)) ∧
    (continuity_engine_after.items = [] ∧
      (∀ tag, map_find continuity_engine_after.prev_frame_transforms_ tag
                = last_transform continuity_engine.items tag) ∧
      (∀ tag, (map_find continuity_engine_after.prev_frame_transforms_ tag).isSome
                ↔ ∃ item ∈ continuity_engine.items, item.tag = tag) ∧
      (∀ tag, (∀ item ∈ continuity_engine.items, item.tag ≠ tag) →
                map_find continuity_engine_after.prev_frame_transforms_ tag = none)) :=
  ⟨(mix_replaces_continuity continuity_engine).1 rfl (by decide),
   (mix_replaces_continuity continuity_engine).2 [0, 0, 0, 0] continuity_engine_after
     continuity_engine_mix⟩

/-- C5, counterexample. Tag 1 is collected in cycle N (with tag 2), not collected in
cycle N+1 (only tag 2 is), and collected again in cycle N+2 with volume 1 and a buffer
of `audio_samples_per_frame = 32` samples, together with tag 2 whose volume goes from
1 to 3. The first element of the block returned in cycle N+2 is 34 (tag 2 is ramped);
a newly constructed engine that collects the same items returns 64 there. -/
theorem gap_block_differs_from_fresh_block :
    ∃ b0 b1 block fresh_block e6 f2,
      (implementation.new ⟨1, field_mode.progressive⟩ format_32).run volume_compose
          (gap_calls 1) = .ok (gap_engine [] (gap_items 1)) ∧
      (gap_engine [] (gap_items 1)).mix
        = .ok (b0, gap_engine [(1, ⟨1, field_mode.progressive⟩),
                               (2, ⟨1, field_mode.progressive⟩)] []) ∧
      (gap_engine [(1, ⟨1, field_mode.progressive⟩), (2, ⟨1, field_mode.progressive⟩)] []).run
          volume_compose gap_calls_without_1
        = .ok (gap_engine [(1, ⟨1, field_mode.progressive⟩),
                           (2, ⟨1, field_mode.progressive⟩)] gap_items_without_1) ∧
      (gap_engine [(1, ⟨1, field_mode.progressive⟩), (2, ⟨1, field_mode.progressive⟩)]
          gap_items_without_1).mix
        = .ok (b1, gap_engine [(2, ⟨1, field_mode.progressive⟩)] []) ∧
      (gap_engine [(2, ⟨1, field_mode.progressive⟩)] []).run volume_compose (gap_calls 3)
        = .ok (gap_engine [(2, ⟨1, field_mode.progressive⟩)] (gap_items 3)) ∧
      (gap_engine [(2, ⟨1, field_mode.progressive⟩)] (gap_items 3)).mix = .ok (block, e6) ∧
      (implementation.new ⟨1, field_mode.progressive⟩ format_32).run volume_compose
          (gap_calls 3) = .ok (gap_engine [] (gap_items 3)) ∧
      (gap_engine [] (gap_items 3)).mix = .ok (fresh_block, f2) ∧
      block[0]? = some 34 ∧ fresh_block[0]? = some 64 := by
  obtain ⟨b0, hb0, -, -⟩ := mix_spec (gap_engine [] (gap_items 1)) rfl (by decide)
  obtain ⟨b1, hb1, -, -⟩ := mix_spec
    (gap_engine [(1, ⟨1, field_mode.progressive⟩), (2, ⟨1, field_mode.progressive⟩)]
      gap_items_without_1) rfl (by decide)
  obtain ⟨block, hb, -, hget⟩ := mix_spec
    (gap_engine [(2, ⟨1, field_mode.progressive⟩)] (gap_items 3)) rfl (by decide)
  obtain ⟨fresh_block, hf, -, hfget⟩ := mix_spec (gap_engine [] (gap_items 3)) rfl (by decide)
  refine ⟨b0, b1, block, fresh_block, _, _, gap_calls_run_1 [], hb0, gap_calls_without_1_run _,
    hb1, gap_calls_run_3 _, hb, gap_calls_run_3 [], hf, ?_, ?_⟩
  · have h := hget 0 (by decide)
    rw [show (gap_engine [(2, ⟨1, field_mode.progressive⟩)] (gap_items 3)).format_desc_
        = format_32 from rfl,
      show (gap_engine [(2, ⟨1, field_mode.progressive⟩)] (gap_items 3)).prev_frame_transforms_
        = [(2, ⟨1, field_mode.progressive⟩)] from rfl,
      show (gap_engine [(2, ⟨1, field_mode.progressive⟩)] (gap_items 3)).items
        = gap_items 3 from rfl,
      gap_accumulated_after_gap,
      cvtps_epi32_lane_intCast 34 (by decide) (by decide)] at h
    rw [h]
    rfl
  · have h := hfget 0 (by decide)
    rw [show (gap_engine [] (gap_items 3)).format_desc_ = format_32 from rfl,
      show (gap_engine [] (gap_items 3)).prev_frame_transforms_ = [] from rfl,
      show (gap_engine [] (gap_items 3)).items = gap_items 3 from rfl,
      gap_accumulated_fresh,
      cvtps_epi32_lane_intCast 64 (by decide) (by decide)] at h
    rw [h]
    rfl

/-- C5, amended. Cycle N ends with a `mix` of an arbitrary engine; in cycle N+1 no
item with the tag is collected; cycle N+2 collects arbitrary items. Then in cycle N+2
every item with the tag is mixed with its own transform as the previous one, whatever
cycle N held: the gain applied is its volume `v` at every sample index and its
contribution at index `j` is `input[j] * v`. And when no tag collected in cycle N+2
was collected in cycle N+1, the block `mix` returns in cycle N+2 is the block a newly
constructed engine returns for the same collected items. -/
theorem gap_resets_continuity
    (compose : frame_transform → frame_transform → frame_transform)
    (identity : frame_transform) (e0 e1 e2 e3 e4 : implementation)
    (calls1 calls2 : List call) (b0 b1 : audio_buffer) (tag : Nat)
    (hN : e0.mix = .ok (b0, e1))
    (hT1 : e1.run compose calls1 = .ok e2)
    (hgap : ∀ item ∈ e2.items, item.tag ≠ tag)
    (hM1 : e2.mix = .ok (b1, e3))
    (hT2 : e3.run compose calls2 = .ok e4) :
    (∀ item ∈ e4.items, item.tag = tag →
      resolve_prev e4.prev_frame_transforms_ item = item.transform ∧
      (∀ j, applied_gain e4.format_desc_ (resolve_prev e4.prev_frame_transforms_ item)
              item.transform j = item.transform.volume) ∧
      (is_mixed e4.format_desc_ e4.prev_frame_transforms_ item = true →
        ∀ j, contribution e4.format_desc_ e4.prev_frame_transforms_ item j
              = ((item.audio_data.getD j 0 : Int) : ℚ) * item.transform.volume)) ∧
    ((∀ item ∈ e4.items, ∀ item1 ∈ e2.items, item.tag ≠ item1.tag) →
      e4.mix.map Prod.fst
        = ({ implementation.new identity e4.format_desc_ with items := e4.items }).mix.map
            Prod.fst) := by
  have hprev : e4.prev_frame_transforms_ = record_transforms [] e2.items := by
    rw [(run_preserves compose calls2 e3 e4 hT2).2, mix_ok_state e2 b1 e3 hM1]
  have hnone : ∀ t, (∀ item1 ∈ e2.items, item1.tag ≠ t) →
      map_find e4.prev_frame_transforms_ t = none := by
    intro t ht
    rw [hprev, map_find_record_transforms, (last_transform_eq_none _ _).mpr ht]
    rfl
  refine ⟨?_, ?_⟩
  · intro item _ htag
    have hres : resolve_prev e4.prev_frame_transforms_ item = item.transform :=
      resolve_prev_of_find_none _ _ (hnone item.tag (by rw [htag]; exact hgap))
    have hgain : ∀ j, applied_gain e4.format_desc_
        (resolve_prev e4.prev_frame_transforms_ item) item.transform j
          = item.transform.volume := by
      intro j
      rw [hres, applied_gain_eq]
      ring
    refine ⟨hres, hgain, ?_⟩
    intro hm j
    rw [contribution, if_pos hm, hgain j]
  · intro hall
    apply mix_block_congr
    · rfl
    · rfl
    · intro item hitem
      rw [resolve_prev_of_find_none _ _
          (hnone item.tag (fun item1 h1 => (hall item hitem item1 h1).symm))]
      exact (resolve_prev_of_find_none [] item rfl).symm

/-- C5, amended, at a concrete input: tag 7 is collected in the first cycle (volumes
1/2 and 1/4), only tag 9 in the second, only tag 7 (volume 1) in the third. -/
theorem gap_resets_continuity_witness :
    (∀ item ∈ engine_collected_7.items, item.tag = 7 →
      resolve_prev engine_collected_7.prev_frame_transforms_ item = item.transform ∧
      (∀ j, applied_gain engine_collected_7.format_desc_
              (resolve_prev engine_collected_7.prev_frame_transforms_ item)
              item.transform j = item.transform.volume) ∧
      (is_mixed engine_collected_7.format_desc_ engine_collected_7.prev_frame_transforms_ item
          = true →
        ∀ j, contribution engine_collected_7.format_desc_
              engine_collected_7.prev_frame_transforms_ item j
              = ((item.audio_data.getD j 0 : Int) : ℚ) * item.transform.volume)) ∧
    engine_collected_7.mix.map Prod.fst
      = ({ implementation.new ⟨1, field_mode.progressive⟩ engine_collected_7.format_desc_ with
            items := engine_collected_7.items }).mix.map Prod.fst :=
  ⟨(gap_resets_continuity volume_compose ⟨1, field_mode.progressive⟩ continuity_engine
      continuity_engine_after engine_collected_9 engine_after_9 engine_collected_7
      calls_tag_9 calls_tag_7 [0, 0, 0, 0] [0, 0, 0, 0] 7 continuity_engine_mix
      calls_tag_9_run (by simp [engine_collected_9]) engine_collected_9_mix
      calls_tag_7_run).1,
   (gap_resets_continuity volume_compose ⟨1, field_mode.progressive⟩ continuity_engine
      continuity_engine_after engine_collected_9 engine_after_9 engine_collected_7
      calls_tag_9 calls_tag_7 [0, 0, 0, 0] [0, 0, 0, 0] 7 continuity_engine_mix
      calls_tag_9_run (by simp [engine_collected_9]) engine_collected_9_mix
      calls_tag_7_run).2 (by simp [engine_collected_7, engine_collected_9])⟩

/-- C6. An item whose tag has a continuity entry of the same volume `v ≥ 0.001`, with a
buffer of `audio_samples_per_frame` samples, on a two-channel format whose block length
is a multiple of four: the item step of `mix` returns, the gain it applies is `v` at
every sample index, and every accumulator `j < audio_samples_per_frame` grows by
`v * input[j]`. -/
theorem constant_volume_contribution (format_desc_ : video_format_desc)
    (prev_frame_transforms_ : transform_map) (st : mix_state) (item : audio_item)
    (p : frame_transform) (v : ℚ)
    (hch : format_desc_.audio_channels = 2)
    (h4 : format_desc_.audio_samples_per_frame % 4 = 0)
    (hentry : map_find prev_frame_transforms_ item.tag = some p)
    (hp : p.volume = v) (hv : item.transform.volume = v) (hv1 : 0.001 ≤ v)
    (hlen : item.audio_data.length = format_desc_.audio_samples_per_frame)
    (hbuf : st.intermediate.length = format_desc_.audio_samples_per_frame + 128) :
    ∃ out, mix_item format_desc_ prev_frame_transforms_ st item
          = .ok ⟨out, map_assign st.next_frame_transforms item.tag item.transform⟩ ∧
      out.length = st.intermediate.length ∧
      (∀ j, applied_gain format_desc_ p item.transform j = v) ∧
      ∀ j, j < format_desc_.audio_samples_per_frame →
        out[j]? = some (st.intermediate.getD j 0 + v * ((item.audio_data.getD j 0 : Int) : ℚ)) := by
  have hres : resolve_prev prev_frame_transforms_ item = p := by
    simp only [resolve_prev, hentry]
  have hgain : ∀ j, applied_gain format_desc_ p item.transform j = v := by
    intro j
    rw [applied_gain_eq, hp, hv]
    ring
  obtain ⟨out, ho, holen, hoget⟩ := mix_item_mixed format_desc_ prev_frame_transforms_ st item
    hch h4 (by rw [hv]; intro h; exact absurd h.1 (not_lt.mpr hv1)) hlen (by omega)
  refine ⟨out, ho, holen, hgain, ?_⟩
  intro j hj
  rw [hoget j, if_pos hj, hres, hgain j]
  congr 1
  ring

/-- C6 at a concrete input: volume 1/2 in both cycles, four samples. -/
theorem constant_volume_contribution_witness :
    ∃ out, mix_item format_4 [(7, ⟨1 / 2, field_mode.progressive⟩)]
          ⟨List.replicate 132 0, []⟩ ⟨7, ⟨1 / 2, field_mode.upper⟩, [10, 20, 30, 40]⟩
          = .ok ⟨out, map_assign [] 7 ⟨1 / 2, field_mode.upper⟩⟩ ∧
      out.length = (List.replicate 132 (0 : ℚ)).length ∧
      (∀ j, applied_gain format_4 ⟨1 / 2, field_mode.progressive⟩ ⟨1 / 2, field_mode.upper⟩ j
        = 1 / 2) ∧
      ∀ j, j < 4 →
        out[j]? = some ((List.replicate 132 (0 : ℚ)).getD j 0
          + 1 / 2 * ((([10, 20, 30, 40] : List Int).getD j 0 : Int) : ℚ)) :=
  constant_volume_contribution format_4 [(7, ⟨1 / 2, field_mode.progressive⟩)]
    ⟨List.replicate 132 0, []⟩ ⟨7, ⟨1 / 2, field_mode.upper⟩, [10, 20, 30, 40]⟩
    ⟨1 / 2, field_mode.progressive⟩ (1 / 2) rfl (by decide) (by simp [map_find]) rfl rfl
    (by norm_num) rfl (by simp [format_4])

/-- C7. With `top` on top of the transform stack, `visit` returns, and it appends
exactly one item (the tag of the leaf, `top`, the samples of the leaf) and leaves the
buffer of the leaf empty if and only if none of the four skip conditions holds; when
one of them holds it leaves the engine and the leaf as they were. -/
theorem visit_collects_iff (self : implementation) (frame : write_frame)
    (top : frame_transform) (rest : List frame_transform)
    (hstack : self.transform_stack_ = top :: rest) :
    (self.visit frame
        = .ok ({ self with items := self.items ++ [⟨frame.tag, top, frame.audio_data⟩] },
               { frame with audio_data := [] })
      ↔ ¬ ((self.format_desc_.field_mode = field_mode.upper ∧ top.field_mode = field_mode.upper)
          ∨ (self.format_desc_.field_mode = field_mode.lower
              ∧ top.field_mode = field_mode.lower)
          ∨ top.volume < 0.002
          ∨ frame.audio_data = [])) ∧
    (((self.format_desc_.field_mode = field_mode.upper ∧ top.field_mode = field_mode.upper)
        ∨ (self.format_desc_.field_mode = field_mode.lower ∧ top.field_mode = field_mode.lower)
        ∨ top.volume < 0.002
        ∨ frame.audio_data = [])
      → self.visit frame = .ok (self, frame)) := by
  have hskip : ((self.format_desc_.field_mode = field_mode.upper
          ∧ top.field_mode = field_mode.upper)
        ∨ (self.format_desc_.field_mode = field_mode.lower ∧ top.field_mode = field_mode.lower)
        ∨ top.volume < 0.002
        ∨ frame.audio_data = [])
      → self.visit frame = .ok (self, frame) := by
    intro h
    unfold implementation.visit
    rw [hstack]
    simp only
    rcases h with h | h | h
    · rw [if_pos h]
    · by_cases h1 : self.format_desc_.field_mode = field_mode.upper
          ∧ top.field_mode = field_mode.upper
      · rw [if_pos h1]
      · rw [if_neg h1, if_pos h]
    · by_cases h1 : self.format_desc_.field_mode = field_mode.upper
          ∧ top.field_mode = field_mode.upper
      · rw [if_pos h1]
      · by_cases h2 : self.format_desc_.field_mode = field_mode.lower
            ∧ top.field_mode = field_mode.lower
        · rw [if_neg h1, if_pos h2]
        · rw [if_neg h1, if_neg h2, if_pos h]
  refine ⟨⟨?_, ?_⟩, hskip⟩
  · intro hv hs
    rw [hskip hs] at hv
    have hitems := congrArg (fun r => r.1.items.length) (Except.ok.inj hv)
    simp at hitems
  · intro hn
    push_neg at hn
    obtain ⟨h1, h2, h3, h4⟩ := hn
    unfold implementation.visit
    rw [hstack]
    simp only
    rw [if_neg (fun h => h1 h.1 h.2), if_neg (fun h => h2 h.1 h.2),
      if_neg (by push_neg; exact ⟨h3, h4⟩)]

/-- C7 at a concrete input: the target renders the upper field, the composed transform
is tagged for the lower field with volume 1, the leaf holds one sample. -/
theorem visit_collects_iff_witness :
    (other_field_engine.visit ⟨7, [5]⟩
        = .ok ({ other_field_engine with
                  items := other_field_engine.items ++ [⟨7, ⟨1, field_mode.lower⟩, [5]⟩] },
               { (⟨7, [5]⟩ : write_frame) with audio_data := [] })
      ↔ ¬ ((other_field_engine.format_desc_.field_mode = field_mode.upper
              ∧ (⟨1, field_mode.lower⟩ : frame_transform).field_mode = field_mode.upper)
          ∨ (other_field_engine.format_desc_.field_mode = field_mode.lower
              ∧ (⟨1, field_mode.lower⟩ : frame_transform).field_mode = field_mode.lower)
          ∨ (⟨1, field_mode.lower⟩ : frame_transform).volume < 0.002
          ∨ (⟨7, [5]⟩ : write_frame).audio_data = [])) ∧
    (((other_field_engine.format_desc_.field_mode = field_mode.upper
          ∧ (⟨1, field_mode.lower⟩ : frame_transform).field_mode = field_mode.upper)
        ∨ (other_field_engine.format_desc_.field_mode = field_mode.lower
          ∧ (⟨1, field_mode.lower⟩ : frame_transform).field_mode = field_mode.lower)
        ∨ (⟨1, field_mode.lower⟩ : frame_transform).volume < 0.002
        ∨ (⟨7, [5]⟩ : write_frame).audio_data = [])
      → other_field_engine.visit ⟨7, [5]⟩ = .ok (other_field_engine, ⟨7, [5]⟩)) :=
  visit_collects_iff other_field_engine ⟨7, [5]⟩ ⟨1, field_mode.lower⟩
    [⟨1, field_mode.progressive⟩] rfl

/-- C8, counterexample. The target renders the upper field and the composed transform
is tagged for the other single field, lower, with volume 1: `visit` collects the leaf. -/
theorem other_field_is_collected :
    other_field_engine.format_desc_.field_mode = field_mode.upper ∧
    other_field_engine.transform_stack_.head? = some ⟨1, field_mode.lower⟩ ∧
    other_field_engine.visit ⟨7, [5]⟩
      = .ok ({ other_field_engine with items := [⟨7, ⟨1, field_mode.lower⟩, [5]⟩] },
             ⟨7, []⟩) := by
  refine ⟨rfl, rfl, ?_⟩
  unfold implementation.visit other_field_engine
  norm_num
  simp

/-- C8, amended. When the field mode of the render target is upper (respectively lower)
and the field mode of the composed transform on top of the stack is the same field,
upper (respectively lower), `visit` collects nothing, for every volume and every
buffer: it leaves the engine and the leaf as they were, so a following `mix` returns
what it would have returned without the call. -/
theorem same_field_is_never_collected (self : implementation) (frame : write_frame)
    (top : frame_transform) (rest : List frame_transform)
    (hstack : self.transform_stack_ = top :: rest)
    (hsame : (self.format_desc_.field_mode = field_mode.upper
                ∧ top.field_mode = field_mode.upper)
           ∨ (self.format_desc_.field_mode = field_mode.lower
                ∧ top.field_mode = field_mode.lower)) :
    self.visit frame = .ok (self, frame) ∧
    (self.visit frame >>= fun r => r.1.mix) = self.mix := by
  have hv : self.visit frame = .ok (self, frame) := by
    unfold implementation.visit
    rw [hstack]
    simp only
    rcases hsame with h | h
    · rw [if_pos h]
    · by_cases h1 : self.format_desc_.field_mode = field_mode.upper
          ∧ top.field_mode = field_mode.upper
      · rw [if_pos h1]
      · rw [if_neg h1, if_pos h]
  refine ⟨hv, ?_⟩
  rw [hv]
  rfl

/-- C8, amended, at a concrete input: target and composed transform both upper. -/
theorem same_field_is_never_collected_witness :
    same_field_engine.visit ⟨7, [5]⟩ = .ok (same_field_engine, ⟨7, [5]⟩) ∧
    (same_field_engine.visit ⟨7, [5]⟩ >>= fun r => r.1.mix) = same_field_engine.mix :=
  same_field_is_never_collected same_field_engine ⟨7, [5]⟩ ⟨1, field_mode.upper⟩
    [⟨1, field_mode.progressive⟩] rfl (Or.inl ⟨rfl, rfl⟩)

/-- C9. A newly constructed engine holds exactly the identity transform on its stack;
on a stack `top :: rest`, both overloads of `begin` return and push `compose top t`
above the unchanged entries; `end` returns and removes exactly the top entry, so `end`
after `begin` restores the stack; and after `begin(t1)`, ..., `begin(tk)` on a new
engine the top of the stack is `identity * t1 * ... * tk` folded from the left. -/
theorem transform_stack_contract
    (compose : frame_transform → frame_transform → frame_transform)
    (identity : frame_transform) (format_desc : video_format_desc)
    (self : implementation) (top : frame_transform) (rest : List frame_transform)
    (t : frame_transform) (frame : basic_frame) (ts : List frame_transform)
    (hstack : self.transform_stack_ = top :: rest) :
    (implementation.new identity format_desc).transform_stack_ = [identity] ∧
    self.begin compose t
      = .ok { self with transform_stack_ := compose top t :: top :: rest } ∧
    self.begin_frame compose frame
      = .ok { self with
                transform_stack_ := compose top frame.get_frame_transform :: top :: rest } ∧
    self.end_ = .ok { self with transform_stack_ := rest } ∧
    (self.begin compose t >>= fun e2 => e2.end_) = .ok self ∧
    ∃ e2, (implementation.new identity format_desc).run compose (ts.map call.begin) = .ok e2 ∧
      e2.transform_stack_.head? = some (ts.foldl compose identity) ∧
      e2.transform_stack_.length = ts.length + 1 := by
  have hbegin : self.begin compose t
      = .ok { self with transform_stack_ := compose top t :: top :: rest } := by
    unfold implementation.begin
    rw [hstack]
  refine ⟨rfl, hbegin, ?_, ?_, ?_, ?_⟩
  · unfold implementation.begin_frame
    rw [hstack]
  · unfold implementation.end_
    rw [hstack]
  · rw [hbegin]
    simp only [bind, Except.bind, implementation.end_]
    rw [← hstack]
  · have hrun : ∀ (ts : List frame_transform) (e : implementation) (top : frame_transform)
        (rest : List frame_transform), e.transform_stack_ = top :: rest →
        ∃ e2, e.run compose (ts.map call.begin) = .ok e2 ∧
          e2.transform_stack_.head? = some (ts.foldl compose top) ∧
          e2.transform_stack_.length = ts.length + (rest.length + 1) := by
      intro ts
      induction ts with
      | nil =>
        intro e top rest he
        refine ⟨e, rfl, ?_, ?_⟩
        · rw [he]; rfl
        · rw [he]; simp
      | cons t1 ts ih =>
        intro e top rest he
        obtain ⟨e2, h1, h2, h3⟩ := ih { e with transform_stack_ := compose top t1 :: top :: rest }
          (compose top t1) (top :: rest) rfl
        refine ⟨e2, ?_, h2, ?_⟩
        · simp only [List.map_cons, implementation.run, implementation.step,
            implementation.begin, he]
          exact h1
        · rw [h3]
          simp only [List.length_cons]
          omega
    obtain ⟨e2, h1, h2, h3⟩ := hrun ts (implementation.new identity format_desc) identity []
      rfl
    exact ⟨e2, h1, h2, by rw [h3]; simp⟩

/-- C9 at a concrete input: an engine with two transforms on its stack, and three
`begin` calls on a new engine, composing by the product of the volumes. -/
theorem transform_stack_contract_witness :
    (implementation.new ⟨1, field_mode.progressive⟩ format_4).transform_stack_
      = [⟨1, field_mode.progressive⟩] ∧
    nested_engine.begin volume_compose ⟨3, field_mode.lower⟩
      = .ok { nested_engine with
                transform_stack_ :=
                  volume_compose ⟨1 / 2, field_mode.upper⟩ ⟨3, field_mode.lower⟩
                    :: ⟨1 / 2, field_mode.upper⟩ :: [⟨1, field_mode.progressive⟩] } ∧
    nested_engine.begin_frame volume_compose ⟨⟨5, field_mode.lower⟩⟩
      = .ok { nested_engine with
                transform_stack_ :=
                  volume_compose ⟨1 / 2, field_mode.upper⟩
                      (⟨⟨5, field_mode.lower⟩⟩ : basic_frame).get_frame_transform
                    :: ⟨1 / 2, field_mode.upper⟩ :: [⟨1, field_mode.progressive⟩] } ∧
    nested_engine.end_
      = .ok { nested_engine with transform_stack_ := [⟨1, field_mode.progressive⟩] } ∧
    (nested_engine.begin volume_compose ⟨3, field_mode.lower⟩ >>= fun e2 => e2.end_)
      = .ok nested_engine ∧
    ∃ e2, (implementation.new ⟨1, field_mode.progressive⟩ format_4).run volume_compose
          (([⟨2, field_mode.upper⟩, ⟨3, field_mode.lower⟩, ⟨5, field_mode.upper⟩]
              : List frame_transform).map call.begin) = .ok e2 ∧
      e2.transform_stack_.head?
        = some (([⟨2, field_mode.upper⟩, ⟨3, field_mode.lower⟩, ⟨5, field_mode.upper⟩]
              : List frame_transform).foldl volume_compose ⟨1, field_mode.progressive⟩) ∧
      e2.transform_stack_.length
        = ([⟨2, field_mode.upper⟩, ⟨3, field_mode.lower⟩, ⟨5, field_mode.upper⟩]
              : List frame_transform).length + 1 :=
  transform_stack_contract volume_compose ⟨1, field_mode.progressive⟩ format_4 nested_engine
    ⟨1 / 2, field_mode.upper⟩ [⟨1, field_mode.progressive⟩] ⟨3, field_mode.lower⟩
    ⟨⟨5, field_mode.lower⟩⟩
    [⟨2, field_mode.upper⟩, ⟨3, field_mode.lower⟩, ⟨5, field_mode.upper⟩] rfl

/-- C10. For a well-nested sequence of `begin` / `end` / `visit` calls on a newly
constructed engine: after every prefix of the sequence the calls have returned and the
stack is not empty; after the whole sequence the stack holds exactly the identity
transform; and a following `mix` leaves the stack so whenever it returns, which it
does on a two-channel format whose block length is a multiple of four. -/
theorem well_nested_traversal_keeps_stack
    (compose : frame_transform → frame_transform → frame_transform)
    (identity : frame_transform) (format_desc : video_format_desc) (cs : List call)
    (h : well_nested cs) :
    (∀ n, ∃ e, (implementation.new identity format_desc).run compose (cs.take n) = .ok e ∧
        e.transform_stack_ ≠ []) ∧
    ∃ e, (implementation.new identity format_desc).run compose cs = .ok e ∧
      e.transform_stack_ = [identity] ∧
      (∀ block e2, e.mix = .ok (block, e2) → e2.transform_stack_ = e.transform_stack_) ∧
      (format_desc.audio_channels = 2 → format_desc.audio_samples_per_frame % 4 = 0 →
        ∃ block e2, e.mix = .ok (block, e2) ∧ e2.transform_stack_ = [identity]) := by
  refine ⟨?_, ?_⟩
  · intro n
    obtain ⟨d3, hd3⟩ := nesting_depth_take cs 0 0 n h
    obtain ⟨e, p, h1, h2, -⟩ := run_nested compose (cs.take n)
      (implementation.new identity format_desc) 0 d3 [] [identity] rfl rfl (by simp) hd3
    refine ⟨e, h1, ?_⟩
    rw [h2]
    simp
  · obtain ⟨e, p, h1, h2, h3⟩ := run_nested compose cs
      (implementation.new identity format_desc) 0 0 [] [identity] rfl rfl (by simp) h
    have hp : p = [] := List.length_eq_zero.mp h3
    rw [hp, List.nil_append] at h2
    have hfd : e.format_desc_ = format_desc := (run_preserves compose cs _ e h1).1
    refine ⟨e, h1, h2, ?_, ?_⟩
    · intro block e2 hm
      rw [mix_ok_state e block e2 hm]
    · intro hch h4
      obtain ⟨block, hb, -, -⟩ := mix_spec e (by rw [hfd]; exact hch) (by rw [hfd]; exact h4)
      exact ⟨block, _, hb, h2⟩

/-- C10 at a concrete input: two nested scopes with a leaf in each, then a third scope. -/
theorem well_nested_traversal_keeps_stack_witness :
    (∀ n, ∃ e, (implementation.new ⟨1, field_mode.progressive⟩ format_4).run volume_compose
          (nested_calls.take n) = .ok e ∧
        e.transform_stack_ ≠ []) ∧
    ∃ e, (implementation.new ⟨1, field_mode.progressive⟩ format_4).run volume_compose
          nested_calls = .ok e ∧
      e.transform_stack_ = [⟨1, field_mode.progressive⟩] ∧
      (∀ block e2, e.mix = .ok (block, e2) → e2.transform_stack_ = e.transform_stack_) ∧
      (format_4.audio_channels = 2 → format_4.audio_samples_per_frame % 4 = 0 →
        ∃ block e2, e.mix = .ok (block, e2) ∧
          e2.transform_stack_ = [⟨1, field_mode.progressive⟩]) :=
  well_nested_traversal_keeps_stack volume_compose ⟨1, field_mode.progressive⟩ format_4
    nested_calls (by decide)

/-- C11, counterexample. A traversal on a new engine collects tag 7 twice: first with
volume 1 and a buffer of one sample (the block length is 4), then with volume 1/2 and
a buffer of four samples. After `mix` the continuity map maps tag 7 to the transform
of the second item, not to the transform of the item with the wrong length. -/
theorem wrong_length_item_entry_is_overwritten :
    (implementation.new ⟨1, field_mode.progressive⟩ format_4).run volume_compose
        duplicate_tag_calls = .ok duplicate_tag_engine ∧
    duplicate_tag_engine.items
      = [⟨7, ⟨1, field_mode.progressive⟩, [5]⟩,
         ⟨7, ⟨1 / 2, field_mode.progressive⟩, [8, 8, 8, 8]⟩] ∧
    ([5] : audio_buffer).length ≠ duplicate_tag_engine.format_desc_.audio_samples_per_frame ∧
    duplicate_tag_engine.mix = .ok ([0, 0, 0, 0], duplicate_tag_engine_after) ∧
    map_find duplicate_tag_engine_after.prev_frame_transforms_ 7
      = some ⟨1 / 2, field_mode.progressive⟩ ∧
    map_find duplicate_tag_engine_after.prev_frame_transforms_ 7
      ≠ some ⟨1, field_mode.progressive⟩ := by
  refine ⟨duplicate_tag_calls_run, rfl, by decide, duplicate_tag_engine_mix, rfl, ?_⟩
  simp only [duplicate_tag_engine_after, map_find, if_true, ne_eq, Option.some.injEq,
    frame_transform.mk.injEq, and_true]
  norm_num

/-- C11, amended. An item whose buffer length differs from `audio_samples_per_frame`
adds nothing: `mix` returns the block it returns with that item removed from the item
list (and it does return on a two-channel format whose block length is a multiple of
four). After `mix` the continuity map has an entry for the tag of that item: the
transform of the last later item with the same tag when there is one, the transform
of that item otherwise. -/
theorem wrong_length_item_is_dropped (self : implementation) (l1 l2 : List audio_item)
    (item : audio_item)
    (hitems : self.items = l1 ++ item :: l2)
    (hlen : item.audio_data.length ≠ self.format_desc_.audio_samples_per_frame) :
    self.mix.map Prod.fst = ({ self with items := l1 ++ l2 }).mix.map Prod.fst ∧
    (self.format_desc_.audio_channels = 2 →
      self.format_desc_.audio_samples_per_frame % 4 = 0 →
      ∃ block e2 e3, self.mix = .ok (block, e2) ∧
        ({ self with items := l1 ++ l2 }).mix = .ok (block, e3)) ∧
    ∀ block e2, self.mix = .ok (block, e2) →
      map_find e2.prev_frame_transforms_ item.tag
        = some ((last_transform l2 item.tag).getD item.transform) ∧
      ((∀ later ∈ l2, later.tag ≠ item.tag) →
        map_find e2.prev_frame_transforms_ item.tag = some item.transform) := by
  have hblock : self.mix.map Prod.fst = ({ self with items := l1 ++ l2 }).mix.map Prod.fst := by
    apply mix_block_of_accumulate self { self with items := l1 ++ l2 } rfl
    unfold mix_accumulate
    rw [hitems]
    exact mix_items_remove_skipped _ _ l1 l2 item _ (Or.inr hlen)
  refine ⟨hblock, ?_, ?_⟩
  · intro hch h4
    exact mix_same_block _ _ rfl hch h4 hblock
  · intro block e2 h
    have hfind : map_find e2.prev_frame_transforms_ item.tag
        = some ((last_transform l2 item.tag).getD item.transform) := by
      rw [mix_ok_state self block e2 h]
      simp only [map_find_record_transforms, hitems, last_transform_append_cons, map_find,
        Option.or_none]
    refine ⟨hfind, ?_⟩
    intro hno
    rw [hfind, (last_transform_eq_none l2 item.tag).mpr hno]
    rfl

/-- C11, amended, at a concrete input: tag 9 is collected with a buffer of one sample
between two items of 32 samples. -/
theorem wrong_length_item_is_dropped_witness :
    wrong_length_engine.mix.map Prod.fst
      = ({ wrong_length_engine with
            items := [item_32 1 1] ++ [item_32 2 3] }).mix.map Prod.fst ∧
    (wrong_length_engine.format_desc_.audio_channels = 2 →
      wrong_length_engine.format_desc_.audio_samples_per_frame % 4 = 0 →
      ∃ block e2 e3, wrong_length_engine.mix = .ok (block, e2) ∧
        ({ wrong_length_engine with
            items := [item_32 1 1] ++ [item_32 2 3] }).mix = .ok (block, e3)) ∧
    ∀ block e2, wrong_length_engine.mix = .ok (block, e2) →
      map_find e2.prev_frame_transforms_ short_item.tag
        = some ((last_transform [item_32 2 3] short_item.tag).getD short_item.transform) ∧
      ((∀ later ∈ [item_32 2 3], later.tag ≠ short_item.tag) →
        map_find e2.prev_frame_transforms_ short_item.tag = some short_item.transform) :=
  wrong_length_item_is_dropped wrong_length_engine [item_32 1 1] [item_32 2 3] short_item
    rfl (by decide)

/-- C12. An item whose current volume and previous volume (the volume of the continuity
entry of its tag, its own volume when there is none) are both below 0.001 contributes
nothing: for every item list holding it, `mix` returns the block it returns for the
list with that item removed (and it does return on a two-channel format whose block
length is a multiple of four). -/
theorem silent_item_contributes_nothing (self : implementation) (l1 l2 : List audio_item)
    (item : audio_item)
    (hitems : self.items = l1 ++ item :: l2)
    (hnext : item.transform.volume < 0.001)
    (hprev : (resolve_prev self.prev_frame_transforms_ item).volume < 0.001) :
    self.mix.map Prod.fst = ({ self with items := l1 ++ l2 }).mix.map Prod.fst ∧
    (self.format_desc_.audio_channels = 2 →
      self.format_desc_.audio_samples_per_frame % 4 = 0 →
      ∃ block e2 e3, self.mix = .ok (block, e2) ∧
        ({ self with items := l1 ++ l2 }).mix = .ok (block, e3)) := by
  have hblock : self.mix.map Prod.fst = ({ self with items := l1 ++ l2 }).mix.map Prod.fst := by
    apply mix_block_of_accumulate self { self with items := l1 ++ l2 } rfl
    unfold mix_accumulate
    rw [hitems]
    exact mix_items_remove_skipped _ _ l1 l2 item _ (Or.inl ⟨hnext, hprev⟩)
  exact ⟨hblock, fun hch h4 => mix_same_block _ _ rfl hch h4 hblock⟩

/-- C12 at a concrete input: tag 7 has volume 1/2000 in the continuity map and in the
item list, between two audible items. -/
theorem silent_item_contributes_nothing_witness :
    silent_item_engine.mix.map Prod.fst
      = ({ silent_item_engine with
            items := [item_32 1 1] ++ [item_32 2 3] }).mix.map Prod.fst ∧
    (silent_item_engine.format_desc_.audio_channels = 2 →
      silent_item_engine.format_desc_.audio_samples_per_frame % 4 = 0 →
      ∃ block e2 e3, silent_item_engine.mix = .ok (block, e2) ∧
        ({ silent_item_engine with
            items := [item_32 1 1] ++ [item_32 2 3] }).mix = .ok (block, e3)) :=
  silent_item_contributes_nothing silent_item_engine [item_32 1 1] [item_32 2 3]
    (item_32 7 (1 / 2000)) rfl (by norm_num [item_32])
    (by norm_num [resolve_prev, map_find, silent_item_engine, item_32])

/-- C13. For every format, when the item list is empty `mix` returns, the block it
returns has exactly `audio_samples_per_frame` elements and every element is zero. -/
theorem mix_of_no_items_is_silence (self : implementation) (h : self.items = []) :
    self.mix = .ok (List.replicate self.format_desc_.audio_samples_per_frame 0,
      { self with items := [], prev_frame_transforms_ := [] }) ∧
    (List.replicate self.format_desc_.audio_samples_per_frame (0 : Int)).length
      = self.format_desc_.audio_samples_per_frame ∧
    ∀ j, j < self.format_desc_.audio_samples_per_frame →
      (List.replicate self.format_desc_.audio_samples_per_frame (0 : Int))[j]? = some 0 := by
  refine ⟨?_, List.length_replicate _ _, fun j hj => List.getElem?_replicate_of_lt hj⟩
  rw [mix_unmixed self (by rw [h]; intro item hmem; cases hmem), h]
  rfl

/-- C13 at a concrete input: a new engine on a four-channel format with six samples
per frame. -/
theorem mix_of_no_items_is_silence_witness :
    (implementation.new ⟨1, field_mode.progressive⟩ format_4ch_6).mix
      = .ok (List.replicate
          (implementation.new ⟨1, field_mode.progressive⟩
            format_4ch_6).format_desc_.audio_samples_per_frame 0,
        { implementation.new ⟨1, field_mode.progressive⟩ format_4ch_6 with
            items := [], prev_frame_transforms_ := [] }) ∧
    (List.replicate (implementation.new ⟨1, field_mode.progressive⟩
        format_4ch_6).format_desc_.audio_samples_per_frame (0 : Int)).length
      = (implementation.new ⟨1, field_mode.progressive⟩
          format_4ch_6).format_desc_.audio_samples_per_frame ∧
    ∀ j, j < (implementation.new ⟨1, field_mode.progressive⟩
        format_4ch_6).format_desc_.audio_samples_per_frame →
      (List.replicate (implementation.new ⟨1, field_mode.progressive⟩
        format_4ch_6).format_desc_.audio_samples_per_frame (0 : Int))[j]? = some 0 :=
  mix_of_no_items_is_silence (implementation.new ⟨1, field_mode.progressive⟩ format_4ch_6) rfl

/-- C14, counterexample. On a four-channel format with six samples per frame `mix`
returns, with a block of six zeros, for an empty item list and for a list that holds
only an item of the wrong length and a silent item. -/
theorem mix_returns_on_unchecked_format :
    format_4ch_6.audio_channels ≠ 2 ∧ format_4ch_6.audio_samples_per_frame % 4 ≠ 0 ∧
    (implementation.new ⟨1, field_mode.progressive⟩ format_4ch_6).mix
      = .ok ([0, 0, 0, 0, 0, 0], implementation.new ⟨1, field_mode.progressive⟩ format_4ch_6) ∧
    unchecked_format_engine.mix
      = .ok ([0, 0, 0, 0, 0, 0],
          { unchecked_format_engine with
              items := []
              prev_frame_transforms_ :=
                [(7, ⟨1 / 2000, field_mode.progressive⟩),
                 (9, ⟨1, field_mode.progressive⟩)] }) := by
  refine ⟨by decide, by decide, ?_, ?_⟩
  · rw [mix_unmixed _ (by intro item hmem; cases hmem)]
    rfl
  · rw [mix_unmixed _ unchecked_format_engine_unmixed]
    rfl

/-- C14, amended. On a format that is not two-channel or whose block length is not a
multiple of four, `mix` fails an assertion when some collected item passes both skip
tests (it is not silent in both cycles and its buffer has the block length), and
returns a block of zeros when every collected item is skipped, in particular when
none was collected. -/
theorem format_assertions_need_a_mixed_item (self : implementation)
    (hbad : self.format_desc_.audio_channels ≠ 2
      ∨ self.format_desc_.audio_samples_per_frame % 4 ≠ 0) :
    ((∃ item ∈ self.items,
        ¬ (item.transform.volume < 0.001
            ∧ (resolve_prev self.prev_frame_transforms_ item).volume < 0.001)
        ∧ item.audio_data.length = self.format_desc_.audio_samples_per_frame) →
      self.mix = .error fault.assertion) ∧
    ((∀ item ∈ self.items,
        (item.transform.volume < 0.001
            ∧ (resolve_prev self.prev_frame_transforms_ item).volume < 0.001)
        ∨ item.audio_data.length ≠ self.format_desc_.audio_samples_per_frame) →
      self.mix = .ok (List.replicate self.format_desc_.audio_samples_per_frame 0,
        { self with items := []
                    prev_frame_transforms_ := record_transforms [] self.items })) := by
  refine ⟨?_, ?_⟩
  · intro h
    obtain ⟨item, hmem, hm⟩ := h
    exact mix_assert self hbad ⟨item, hmem, (is_mixed_iff _ _ _).mpr hm⟩
  · intro h
    exact mix_unmixed self (fun item hmem => not_mixed_of_skip _ _ _ (h item hmem))

/-- C14, amended, at concrete inputs on a four-channel format with six samples per
frame: one audible item of the block length, and a list whose items are all skipped. -/
theorem format_assertions_need_a_mixed_item_witness :
    asserting_engine.mix = .error fault.assertion ∧
    unchecked_format_engine.mix
      = .ok (List.replicate unchecked_format_engine.format_desc_.audio_samples_per_frame 0,
        { unchecked_format_engine with
            items := []
            prev_frame_transforms_ := record_transforms [] unchecked_format_engine.items }) :=
  ⟨(format_assertions_need_a_mixed_item asserting_engine (Or.inl (by decide))).1
      ⟨⟨7, ⟨1, field_mode.progressive⟩, [1, 2, 3, 4, 5, 6]⟩, List.mem_singleton.mpr rfl,
        by norm_num, rfl⟩,
   (format_assertions_need_a_mixed_item unchecked_format_engine (Or.inl (by decide))).2
      (fun item hmem => skip_of_not_mixed _ _ _ (unchecked_format_engine_unmixed item hmem))⟩

/-- C15, counterexample. The constructor returns an engine for a format whose block
length, 6, is neither a multiple of 4 nor of the channel count, 4; the engine holds
that format and its `mix` returns. -/
theorem engine_with_unchecked_format_exists :
    format_4ch_6.audio_samples_per_frame % 4 ≠ 0 ∧
    format_4ch_6.audio_samples_per_frame % format_4ch_6.audio_channels ≠ 0 ∧
    (implementation.new ⟨1, field_mode.progressive⟩ format_4ch_6).format_desc_
      = format_4ch_6 ∧
    (implementation.new ⟨1, field_mode.progressive⟩ format_4ch_6).mix
      = .ok ([0, 0, 0, 0, 0, 0],
          implementation.new ⟨1, field_mode.progressive⟩ format_4ch_6) := by
  refine ⟨by decide, by decide, rfl, ?_⟩
  rw [mix_unmixed _ (by intro item hmem; cases hmem)]
  rfl

/-- C15, amended. The constructor checks nothing: for every format descriptor it
returns an engine that holds the descriptor unchanged, with the identity transform on
its stack, an empty continuity map and no items, and `mix` on that engine returns a
block of `audio_samples_per_frame` zeros and leaves the engine as it was. -/
theorem construction_accepts_every_format (identity : frame_transform)
    (format_desc : video_format_desc) :
    (implementation.new identity format_desc).format_desc_ = format_desc ∧
    (implementation.new identity format_desc).transform_stack_ = [identity] ∧
    (implementation.new identity format_desc).prev_frame_transforms_ = [] ∧
    (implementation.new identity format_desc).items = [] ∧
    (implementation.new identity format_desc).mix
      = .ok (List.replicate format_desc.audio_samples_per_frame 0,
          implementation.new identity format_desc) := by
  refine ⟨rfl, rfl, rfl, rfl, ?_⟩
  rw [mix_unmixed _ (by intro item hmem; cases hmem)]
  rfl

/-- C16. For every engine and every permutation of its item list, `mix` returns the
same block for the permuted list (or fails alike on a format that trips an assertion);
on a two-channel format whose block length is a multiple of four it returns for
both. -/
theorem mix_is_order_independent (self : implementation) (items2 : List audio_item)
    (hperm : self.items.Perm items2) :
    self.mix.map Prod.fst = ({ self with items := items2 }).mix.map Prod.fst ∧
    (self.format_desc_.audio_channels = 2 →
      self.format_desc_.audio_samples_per_frame % 4 = 0 →
      ∃ block e2 e3, self.mix = .ok (block, e2) ∧
        ({ self with items := items2 }).mix = .ok (block, e3)) := by
  have hblock : self.mix.map Prod.fst = ({ self with items := items2 }).mix.map Prod.fst := by
    by_cases hok : self.format_desc_.audio_channels = 2
        ∧ self.format_desc_.audio_samples_per_frame % 4 = 0
    · obtain ⟨b1, hb1, hl1, hg1⟩ := mix_spec self hok.1 hok.2
      obtain ⟨b2, hb2, hl2, hg2⟩ := mix_spec { self with items := items2 } hok.1 hok.2
      have hb : b1 = b2 := by
        apply List.ext_getElem?
        intro j
        by_cases hj : j < self.format_desc_.audio_samples_per_frame
        · rw [hg1 j hj, hg2 j hj]
          simp only [accumulated_perm _ _ _ _ hperm j]
        · rw [List.getElem?_eq_none (by omega), List.getElem?_eq_none (by simp only at hl2; omega)]
      rw [hb1, hb2, hb]
      rfl
    · have hbad : self.format_desc_.audio_channels ≠ 2
          ∨ self.format_desc_.audio_samples_per_frame % 4 ≠ 0 := by
        by_contra hc
        push_neg at hc
        exact hok hc
      by_cases hm : ∃ item ∈ self.items,
          is_mixed self.format_desc_ self.prev_frame_transforms_ item = true
      · have hm2 : ∃ item ∈ ({ self with items := items2 } : implementation).items,
            is_mixed self.format_desc_ self.prev_frame_transforms_ item = true := by
          obtain ⟨item, hmem, hit⟩ := hm
          exact ⟨item, hperm.mem_iff.mp hmem, hit⟩
        rw [mix_assert self hbad hm, mix_assert { self with items := items2 } hbad hm2]
      · have hn : ∀ item ∈ self.items,
            is_mixed self.format_desc_ self.prev_frame_transforms_ item = false := by
          intro item hmem
          cases hi : is_mixed self.format_desc_ self.prev_frame_transforms_ item with
          | false => rfl
          | true => exact absurd ⟨item, hmem, hi⟩ hm
        have hn2 : ∀ item ∈ ({ self with items := items2 } : implementation).items,
            is_mixed self.format_desc_ self.prev_frame_transforms_ item = false :=
          fun item hmem => hn item (hperm.mem_iff.mpr hmem)
        rw [mix_unmixed self hn, mix_unmixed { self with items := items2 } hn2]
        rfl
  exact ⟨hblock, fun hch h4 => mix_same_block _ _ rfl hch h4 hblock⟩

/-- C16 at a concrete input: two items of 32 samples, one of them ramped, in both
orders. -/
theorem mix_is_order_independent_witness :
    order_engine.mix.map Prod.fst
      = ({ order_engine with items := [item_32 2 3, item_32 1 1] }).mix.map Prod.fst ∧
    (order_engine.format_desc_.audio_channels = 2 →
      order_engine.format_desc_.audio_samples_per_frame % 4 = 0 →
      ∃ block e2 e3, order_engine.mix = .ok (block, e2) ∧
        ({ order_engine with items := [item_32 2 3, item_32 1 1] }).mix = .ok (block, e3)) :=
  mix_is_order_independent order_engine [item_32 2 3, item_32 1 1] (List.Perm.swap _ _ [])

/-- C17. On a two-channel format whose block length `S` is a multiple of four: `mix`
returns, so no load or store of it faults on the buffers of `S + 128` elements; the
accumulate loop of a mixed item returns on an item buffer and an accumulation buffer
of exactly `S` elements, and the quantize loop returns on an accumulation buffer and a
result buffer of exactly `S` elements, so every index they read or write is below `S`
(a load or store with an index outside its buffer faults); and the elements of the
accumulation buffer from `S` on are the zeros they were initialised with. -/
theorem mix_accesses_stay_below_block_length (self : implementation)
    (hch : self.format_desc_.audio_channels = 2)
    (h4 : self.format_desc_.audio_samples_per_frame % 4 = 0) :
    (∃ block e2, self.mix = .ok (block, e2)) ∧
    (∀ (item : audio_item) (prev_ps next_ps delta2_ps alpha_ps : m128 ℚ)
        (intermediate : List ℚ),
      item.audio_data.length = self.format_desc_.audio_samples_per_frame →
      intermediate.length = self.format_desc_.audio_samples_per_frame →
      ∃ out, accumulate_loop item.audio_data prev_ps next_ps delta2_ps
            (self.format_desc_.audio_samples_per_frame / 4) 0 alpha_ps intermediate = .ok out ∧
        out.length = self.format_desc_.audio_samples_per_frame) ∧
    (∀ (intermediate : List ℚ) (result : List Int),
      intermediate.length = self.format_desc_.audio_samples_per_frame →
      result.length = self.format_desc_.audio_samples_per_frame →
      ∃ out, quantize_loop intermediate (self.format_desc_.audio_samples_per_frame / 32) 0 0
            result = .ok out ∧
        out.length = self.format_desc_.audio_samples_per_frame) ∧
    (∀ st, mix_accumulate self = .ok st →
      st.intermediate.length = self.format_desc_.audio_samples_per_frame + 128 ∧
      ∀ j, self.format_desc_.audio_samples_per_frame ≤ j →
        j < self.format_desc_.audio_samples_per_frame + 128 →
        st.intermediate[j]? = some 0) ∧
    (∀ (buf : List ℚ) (i : Nat), buf.length < i + 4 → _mm_load_ps buf i = .error fault.access) ∧
    (∀ (buf : List Int) (i : Nat), buf.length < i + 4 →
      _mm_load_si128 buf i = .error fault.access) ∧
    (∀ (buf : List ℚ) (i : Nat) (v : m128 ℚ), buf.length < i + 4 →
      _mm_store_ps buf i v = .error fault.access) ∧
    (∀ (buf : List Int) (i : Nat) (v : m128 Int), buf.length < i + 4 →
      _mm_stream_si128 buf i v = .error fault.access) := by
  refine ⟨?_, ?_, ?_, ?_, fun buf i h => load4_fault buf i h, fun buf i h => load4_fault buf i h,
    fun buf i v h => store4_fault buf i v h, fun buf i v h => store4_fault buf i v h⟩
  · obtain ⟨block, hb, -, -⟩ := mix_spec self hch h4
    exact ⟨block, _, hb⟩
  · intro item prev_ps next_ps delta2_ps alpha_ps intermediate hlen hbuf
    obtain ⟨out, ho, holen, -⟩ := accumulate_loop_spec item.audio_data prev_ps next_ps
      delta2_ps (self.format_desc_.audio_samples_per_frame / 4) 0 alpha_ps intermediate
      (by omega) (by omega)
    exact ⟨out, ho, by omega⟩
  · intro intermediate result hi hr
    obtain ⟨out, ho, holen, -⟩ := quantize_loop_spec intermediate
      (self.format_desc_.audio_samples_per_frame / 32) 0 0 result (by omega) (by omega)
    exact ⟨out, ho, by omega⟩
  · intro st hst
    obtain ⟨out, ho, holen, hoget⟩ := mix_items_spec self.format_desc_
      self.prev_frame_transforms_ hch h4 self.items
      ⟨List.replicate (self.format_desc_.audio_samples_per_frame + 128) 0, []⟩ (by simp)
    unfold mix_accumulate at hst
    rw [ho] at hst
    cases hst
    simp only [List.length_replicate] at holen
    refine ⟨holen, ?_⟩
    intro j hj1 hj2
    rw [hoget j, if_neg (by omega), List.getElem?_replicate_of_lt hj2]

/-- C17 at a concrete input: two items of 32 samples on a format of 32 samples per
frame. -/
theorem mix_accesses_stay_below_block_length_witness :
    (∃ block e2, order_engine.mix = .ok (block, e2)) ∧
    (∀ (item : audio_item) (prev_ps next_ps delta2_ps alpha_ps : m128 ℚ)
        (intermediate : List ℚ),
      item.audio_data.length = order_engine.format_desc_.audio_samples_per_frame →
      intermediate.length = order_engine.format_desc_.audio_samples_per_frame →
      ∃ out, accumulate_loop item.audio_data prev_ps next_ps delta2_ps
            (order_engine.format_desc_.audio_samples_per_frame / 4) 0 alpha_ps intermediate
          = .ok out ∧
        out.length = order_engine.format_desc_.audio_samples_per_frame) ∧
    (∀ (intermediate : List ℚ) (result : List Int),
      intermediate.length = order_engine.format_desc_.audio_samples_per_frame →
      result.length = order_engine.format_desc_.audio_samples_per_frame →
      ∃ out, quantize_loop intermediate
            (order_engine.format_desc_.audio_samples_per_frame / 32) 0 0 result = .ok out ∧
        out.length = order_engine.format_desc_.audio_samples_per_frame) ∧
    (∀ st, mix_accumulate order_engine = .ok st →
      st.intermediate.length = order_engine.format_desc_.audio_samples_per_frame + 128 ∧
      ∀ j, order_engine.format_desc_.audio_samples_per_frame ≤ j →
        j < order_engine.format_desc_.audio_samples_per_frame + 128 →
        st.intermediate[j]? = some 0) ∧
    (∀ (buf : List ℚ) (i : Nat), buf.length < i + 4 → _mm_load_ps buf i = .error fault.access) ∧
    (∀ (buf : List Int) (i : Nat), buf.length < i + 4 →
      _mm_load_si128 buf i = .error fault.access) ∧
    (∀ (buf : List ℚ) (i : Nat) (v : m128 ℚ), buf.length < i + 4 →
      _mm_store_ps buf i v = .error fault.access) ∧
    (∀ (buf : List Int) (i : Nat) (v : m128 Int), buf.length < i + 4 →
      _mm_stream_si128 buf i v = .error fault.access) :=
  mix_accesses_stay_below_block_length order_engine rfl (by decide)

/-- C18. After any sequence of `begin` / `end` / `visit` / `mix` calls that returns, on
a newly constructed engine, every item of the item list has a volume of at least 0.002
and a non-empty buffer; so the silence test of `mix` (current volume below 0.001 and
previous volume below 0.001) is false for every item of the list. -/
theorem collected_items_are_audible
    (compose : frame_transform → frame_transform → frame_transform)
    (identity : frame_transform) (format_desc : video_format_desc)
    (calls : List engine_call) (e : implementation)
    (hrun : (implementation.new identity format_desc).run_calls compose calls = .ok e) :
    (∀ item ∈ e.items, 0.002 ≤ item.transform.volume ∧ item.audio_data ≠ []) ∧
    (∀ item ∈ e.items,
      ¬ (item.transform.volume < 0.001
          ∧ (resolve_prev e.prev_frame_transforms_ item).volume < 0.001)) := by
  have hinv : items_audible e :=
    run_calls_items_audible compose calls (implementation.new identity format_desc) e
      (by intro item hmem; cases hmem) hrun
  refine ⟨hinv, ?_⟩
  intro item hmem hs
  have h1 := (hinv item hmem).1
  have h2 := hs.1
  have h3 : (0.001 : ℚ) < 0.002 := by norm_num
  exact absurd (lt_of_lt_of_le (lt_trans h2 h3) h1) (lt_irrefl _)

/-- C18 at a concrete input: tag 9 is collected and mixed, then tag 7 is collected. -/
theorem collected_items_are_audible_witness :
    (∀ item ∈ engine_collected_7.items, 0.002 ≤ item.transform.volume ∧ item.audio_data ≠ []) ∧
    (∀ item ∈ engine_collected_7.items,
      ¬ (item.transform.volume < 0.001
          ∧ (resolve_prev engine_collected_7.prev_frame_transforms_ item).volume < 0.001)) :=
  collected_items_are_audible volume_compose ⟨1, field_mode.progressive⟩ format_4
    two_cycle_calls engine_collected_7 two_cycle_calls_run

/-- C19. A cycle starts with an empty item list and a continuity entry of volume
`p ≥ 0.002` for a tag, and every leaf of that tag is visited under a composed volume
below 0.002. Then none of these visits collects the leaf (engine and leaf stay as they
were), no item of the tag is in the item list at the end of the traversal although the
continuity entry is still there, the block `mix` returns is the one it returns for any
continuity map that differs only at that tag (nothing is ramped down from `p`), and
after `mix` the continuity map has no entry for the tag. -/
theorem fade_to_silence_is_not_ramped
    (compose : frame_transform → frame_transform → frame_transform)
    (e1 e2 : implementation) (calls : List call) (tag : Nat) (p : frame_transform)
    (hstart : e1.items = [])
    (hentry : map_find e1.prev_frame_transforms_ tag = some p)
    (hp : 0.002 ≤ p.volume)
    (hrun : e1.run compose calls = .ok e2)
    (hsilent : ∀ n frame e, calls[n]? = some (call.visit frame) → frame.tag = tag →
      e1.run compose (calls.take n) = .ok e →
      ∃ top rest, e.transform_stack_ = top :: rest ∧ top.volume < 0.002) :
    (∀ n frame e, calls[n]? = some (call.visit frame) → frame.tag = tag →
      e1.run compose (calls.take n) = .ok e → e.visit frame = .ok (e, frame)) ∧
    (∀ item ∈ e2.items, item.tag ≠ tag) ∧
    (map_find e2.prev_frame_transforms_ tag = some p ∧ 0.002 ≤ p.volume) ∧
    (∀ pm2 : transform_map,
      (∀ t, t ≠ tag → map_find pm2 t = map_find e2.prev_frame_transforms_ t) →
      ({ e2 with prev_frame_transforms_ := pm2 }).mix.map Prod.fst = e2.mix.map Prod.fst) ∧
    (∀ block e3, e2.mix = .ok (block, e3) →
      map_find e3.prev_frame_transforms_ tag = none) ∧
    (e2.format_desc_.audio_channels = 2 →
      e2.format_desc_.audio_samples_per_frame % 4 = 0 →
      ∃ block e3, e2.mix = .ok (block, e3) ∧
        map_find e3.prev_frame_transforms_ tag = none) := by
  have hno : ∀ item ∈ e2.items, item.tag ≠ tag :=
    run_collects_no_silent_tag compose tag calls e1 e2
      (by rw [hstart]; intro item hmem; cases hmem) hrun hsilent
  have hafter : ∀ block e3, e2.mix = .ok (block, e3) →
      map_find e3.prev_frame_transforms_ tag = none := by
    intro block e3 hm
    rw [mix_ok_state e2 block e3 hm]
    simp only [map_find_record_transforms, (last_transform_eq_none _ _).mpr hno]
    rfl
  refine ⟨?_, hno, ⟨?_, hp⟩, ?_, hafter, ?_⟩
  · intro n frame e hn htag hr
    obtain ⟨top, rest, hs, hv⟩ := hsilent n frame e hn htag hr
    exact visit_below_threshold e frame top rest hs hv
  · rw [(run_preserves compose calls e1 e2 hrun).2]
    exact hentry
  · intro pm2 hagree
    apply mix_block_congr { e2 with prev_frame_transforms_ := pm2 } e2 rfl rfl
    intro item hmem
    simp only [resolve_prev, hagree item.tag (hno item hmem)]
  · intro hch h4
    obtain ⟨block, hb, -, -⟩ := mix_spec e2 hch h4
    exact ⟨block, _, hb, hafter block _ hb⟩

/-- C19 at a concrete input: tag 7 was collected with volume 1 in the previous cycle
and is visited under volume 1/1000 in this one, next to an audible leaf of tag 9. -/
theorem fade_to_silence_is_not_ramped_witness :
    (∀ n frame e, fade_calls[n]? = some (call.visit frame) → frame.tag = 7 →
      fade_engine.run volume_compose (fade_calls.take n) = .ok e →
      e.visit frame = .ok (e, frame)) ∧
    (∀ item ∈ fade_engine_collected.items, item.tag ≠ 7) ∧
    (map_find fade_engine_collected.prev_frame_transforms_ 7
        = some ⟨1, field_mode.progressive⟩
      ∧ 0.002 ≤ (⟨1, field_mode.progressive⟩ : frame_transform).volume) ∧
    (∀ pm2 : transform_map,
      (∀ t, t ≠ 7 → map_find pm2 t = map_find fade_engine_collected.prev_frame_transforms_ t) →
      ({ fade_engine_collected with prev_frame_transforms_ := pm2 }).mix.map Prod.fst
        = fade_engine_collected.mix.map Prod.fst) ∧
    (∀ block e3, fade_engine_collected.mix = .ok (block, e3) →
      map_find e3.prev_frame_transforms_ 7 = none) ∧
    (fade_engine_collected.format_desc_.audio_channels = 2 →
      fade_engine_collected.format_desc_.audio_samples_per_frame % 4 = 0 →
      ∃ block e3, fade_engine_collected.mix = .ok (block, e3) ∧
        map_find e3.prev_frame_transforms_ 7 = none) :=
  fade_to_silence_is_not_ramped volume_compose fade_engine fade_engine_collected fade_calls 7
    ⟨1, field_mode.progressive⟩ rfl rfl (by norm_num) fade_calls_run fade_calls_silent

/-- C20. On a two-channel format whose block length `S` is a multiple of four, for an
item that `mix` mixes and every sample index `j < S`: the alpha used lies in `[0, 1)`,
the gain applied lies between the smaller and the larger of the previous and the
current volume, and the item step returns and adds the sample times that gain to
accumulator `j`. -/
theorem crossfade_never_overshoots (format_desc_ : video_format_desc)
    (prev_frame_transforms_ : transform_map) (st : mix_state) (item : audio_item) (j : Nat)
    (hch : format_desc_.audio_channels = 2)
    (h4 : format_desc_.audio_samples_per_frame % 4 = 0)
    (hsil : ¬ (item.transform.volume < 0.001
            ∧ (resolve_prev prev_frame_transforms_ item).volume < 0.001))
    (hlen : item.audio_data.length = format_desc_.audio_samples_per_frame)
    (hbuf : st.intermediate.length = format_desc_.audio_samples_per_frame + 128)
    (hj : j < format_desc_.audio_samples_per_frame) :
    (0 ≤ applied_alpha format_desc_ j ∧ applied_alpha format_desc_ j < 1) ∧
    (min (resolve_prev prev_frame_transforms_ item).volume item.transform.volume
        ≤ applied_gain format_desc_ (resolve_prev prev_frame_transforms_ item)
            item.transform j
      ∧ applied_gain format_desc_ (resolve_prev prev_frame_transforms_ item) item.transform j
        ≤ max (resolve_prev prev_frame_transforms_ item).volume item.transform.volume) ∧
    ∃ out, mix_item format_desc_ prev_frame_transforms_ st item
          = .ok ⟨out, map_assign st.next_frame_transforms item.tag item.transform⟩ ∧
      out[j]? = some (((item.audio_data.getD j 0 : Int) : ℚ)
              * applied_gain format_desc_ (resolve_prev prev_frame_transforms_ item)
                  item.transform j
            + st.intermediate.getD j 0) := by
  have ha := applied_alpha_bounds format_desc_ j hch h4 hj
  refine ⟨ha, ?_, ?_⟩
  · rw [applied_gain_eq]
    exact crossfade_between _ _ _ ha.1 ha.2.le
  · obtain ⟨out, ho, -, hoget⟩ := mix_item_mixed format_desc_ prev_frame_transforms_ st item
      hch h4 hsil hlen (by omega)
    exact ⟨out, ho, by rw [hoget j, if_pos hj]⟩

/-- C20 at a concrete input: a source going from volume 1 to volume 3, sample 5 of a
block of 32. -/
theorem crossfade_never_overshoots_witness :
    (0 ≤ applied_alpha format_32 5 ∧ applied_alpha format_32 5 < 1) ∧
    (min (resolve_prev [(2, ⟨1, field_mode.progressive⟩)] (item_32 2 3)).volume
          (item_32 2 3).transform.volume
        ≤ applied_gain format_32 (resolve_prev [(2, ⟨1, field_mode.progressive⟩)] (item_32 2 3))
            (item_32 2 3).transform 5
      ∧ applied_gain format_32 (resolve_prev [(2, ⟨1, field_mode.progressive⟩)] (item_32 2 3))
            (item_32 2 3).transform 5
        ≤ max (resolve_prev [(2, ⟨1, field_mode.progressive⟩)] (item_32 2 3)).volume
            (item_32 2 3).transform.volume) ∧
    ∃ out, mix_item format_32 [(2, ⟨1, field_mode.progressive⟩)]
            ⟨List.replicate 160 0, []⟩ (item_32 2 3)
          = .ok ⟨out, map_assign (⟨List.replicate 160 0, []⟩ : mix_state).next_frame_transforms
              (item_32 2 3).tag (item_32 2 3).transform⟩ ∧
      out[5]? = some ((((item_32 2 3).audio_data.getD 5 0 : Int) : ℚ)
              * applied_gain format_32
                  (resolve_prev [(2, ⟨1, field_mode.progressive⟩)] (item_32 2 3))
                  (item_32 2 3).transform 5
            + (⟨List.replicate 160 0, []⟩ : mix_state).intermediate.getD 5 0) :=
  crossfade_never_overshoots format_32 [(2, ⟨1, field_mode.progressive⟩)]
    ⟨List.replicate 160 0, []⟩ (item_32 2 3) 5 rfl (by decide)
    (by norm_num [item_32, resolve_prev, map_find]) (by simp [item_32, format_32])
    (by simp [format_32]) (by decide)

end caspar.core
